import Mathlib

/-!
# File explorer shell: permission codec, tokenizer and dispatch loop

A shallow embedding of `src/file_Explorer.cpp`.

* `std::string` is a list of characters (`Str`), one `Char` per `char`.
* `fs::perms` is its underlying unsigned value, a `Nat`, with the bitwise
  operators of the enumeration.
* `std::istringstream` is a buffer with a read position and the state flags
  `eofbit`, `failbit`, `badbit` and the format flag `skipws`; the extractors
  follow [istream.formatted] and [quoted.manip] of the C++ standard.
* The filesystem library is a parameter (`FsApi`): every call may return a
  value or throw, and may change the filesystem state.  Every library call
  the program makes is also recorded in a call log.
* Exceptions are explicit: a computation returns a value or a `Fault`, and
  `try_catch` is the `try`/`catch` block.
* The two loops of the tokenizer take fuel; `split_args_total` shows that
  the fuel `split_args` supplies is enough on every line.
-/

namespace FileExplorer

/-- Model of `std::string`. -/
abbrev Str := List Char

/-! ## Permission bits (`std::filesystem::perms`) -/

namespace perms
def none : Nat := 0
def owner_read : Nat := 0o400
def owner_write : Nat := 0o200
def owner_exec : Nat := 0o100
def group_read : Nat := 0o40
def group_write : Nat := 0o20
def group_exec : Nat := 0o10
def others_read : Nat := 0o4
def others_write : Nat := 0o2
def others_exec : Nat := 0o1
end perms

/-- Source lines 32-50.  The unused local lambda `check` has no effect. -/
def perms_to_string (p : Nat) : Str :=
  let s : Str := []
  let s := s ++ [if (p &&& perms.owner_read) ≠ perms.none then 'r' else '-']
  let s := s ++ [if (p &&& perms.owner_write) ≠ perms.none then 'w' else '-']
  let s := s ++ [if (p &&& perms.owner_exec) ≠ perms.none then 'x' else '-']
  let s := s ++ [' ']
  let s := s ++ [if (p &&& perms.group_read) ≠ perms.none then 'r' else '-']
  let s := s ++ [if (p &&& perms.group_write) ≠ perms.none then 'w' else '-']
  let s := s ++ [if (p &&& perms.group_exec) ≠ perms.none then 'x' else '-']
  let s := s ++ [' ']
  let s := s ++ [if (p &&& perms.others_read) ≠ perms.none then 'r' else '-']
  let s := s ++ [if (p &&& perms.others_write) ≠ perms.none then 'w' else '-']
  let s := s ++ [if (p &&& perms.others_exec) ≠ perms.none then 'x' else '-']
  s

/-! ## Character classes of the "C" locale -/

/-- The double quote, default delimiter of `std::quoted`. -/
def dquote : Char := Char.ofNat 34

/-- The backslash, default escape character of `std::quoted`. -/
def backslash : Char := Char.ofNat 92

/-- The classic-locale `std::isspace`: space, `\t`, `\n`, `\v`, `\f`, `\r`. -/
def isspace (c : Char) : Bool :=
  c.toNat = 32 || (9 ≤ c.toNat && c.toNat ≤ 13)

/-- The function `::isdigit`: the ten decimal digits. -/
def isdigit (c : Char) : Bool :=
  48 ≤ c.toNat && c.toNat ≤ 57

/-! ## `std::istringstream` -/

/-- An input string stream: the characters already extracted (most recent
first), the characters still to be read, the three state bits and the
`skipws` format flag. -/
structure IStream where
  consumed : Str
  rest : Str
  eofbit : Bool
  failbit : Bool
  badbit : Bool
  skipws : Bool
deriving DecidableEq, Repr

namespace IStream

/-- The constructor `std::istringstream iss(line)`. -/
def ofString (line : Str) : IStream :=
  { consumed := [], rest := line, eofbit := false, failbit := false,
    badbit := false, skipws := true }

/-- Member `good()`: no state bit is set. -/
def good (s : IStream) : Bool := !s.eofbit && !s.failbit && !s.badbit

/-- Member `fail()`: `failbit` or `badbit` is set; `operator bool` is its negation. -/
def fail (s : IStream) : Bool := s.failbit || s.badbit

/-- Move the leading whitespace of the buffer to the consumed side. -/
def skip_ws (s : IStream) : IStream :=
  { s with consumed := (s.rest.takeWhile isspace).reverse ++ s.consumed,
           rest := s.rest.dropWhile isspace }

/-- The constructor `sentry(is, noskipws)` of [istream.sentry]: on a good
stream it skips whitespace when asked to and `skipws` is set, and reports
end of input; on a stream that is not good it sets `failbit`. -/
def sentry (s : IStream) (noskip : Bool) : IStream × Bool :=
  if s.good then
    if !noskip && s.skipws then
      let s1 := s.skip_ws
      if s1.rest.isEmpty then ({ s1 with eofbit := true, failbit := true }, false)
      else (s1, true)
    else (s, true)
  else ({ s with failbit := true }, false)

/-- The extractor `is >> c` for a `char`: the sentry, then one character;
`c` keeps its value when nothing is extracted. -/
def get_char (s : IStream) (c : Char) : IStream × Char :=
  match s.sentry false with
  | (s1, true) =>
    match s1.rest with
    | [] => ({ s1 with eofbit := true, failbit := true }, c)
    | x :: r => ({ s1 with consumed := x :: s1.consumed, rest := r }, x)
  | (s1, false) => (s1, c)

/-- Member `unget()`: clears `eofbit`, then puts the last extracted character
back; `badbit` when there is none. -/
def unget (s : IStream) : IStream :=
  let s0 := { s with eofbit := false }
  match s0.sentry true with
  | (s1, true) =>
    match s1.consumed with
    | [] => { s1 with badbit := true }
    | x :: cs => { s1 with consumed := cs, rest := x :: s1.rest }
  | (s1, false) => s1

/-- The extractor `is >> str` for a `std::string` (width 0): the sentry, then
`str` is erased and characters are appended up to the next whitespace or the
end of input; `eofbit` at the end of input, `failbit` when no character was
extracted.  `str` is untouched when the sentry fails. -/
def get_string (s : IStream) (str : Str) : IStream × Str :=
  match s.sentry false with
  | (s1, true) =>
    let word := s1.rest.takeWhile (fun c => !isspace c)
    let r := s1.rest.dropWhile (fun c => !isspace c)
    let s2 := { s1 with consumed := word.reverse ++ s1.consumed, rest := r }
    let s3 := if r.isEmpty then { s2 with eofbit := true } else s2
    let s4 := if word.isEmpty then { s3 with failbit := true } else s3
    (s4, word)
  | (s1, false) => (s1, str)

/-- The `do ... while (true)` loop of the `std::quoted` extractor, entered
after the opening delimiter with `skipws` cleared: characters are appended
until an unescaped delimiter (which is discarded) or until an extraction
fails; an escape character is dropped and the character after it is kept.
`none` when the fuel runs out. -/
def quoted_loop : Nat → IStream → Str → Char → Option (IStream × Str)
  | 0, _, _, _ => Option.none
  | n + 1, s, str, c =>
    match s.get_char c with
    | (s1, c1) =>
      if !s1.good then some (s1, str)
      else if c1 = backslash then
        match s1.get_char c1 with
        | (s2, c2) =>
          if !s2.good then some (s2, str)
          else quoted_loop n s2 (str ++ [c2]) c2
      else if c1 = dquote then some (s1, str)
      else quoted_loop n s1 (str ++ [c1]) c1

/-- The extractor `is >> std::quoted(str)` of [quoted.manip] with the
default delimiter and escape: when the first character after whitespace is
not the delimiter it is put back and the plain string extractor runs;
otherwise the quoted text is read with `skipws` cleared and the flag is
restored afterwards. -/
def get_quoted (s : IStream) (str : Str) : Option (IStream × Str) :=
  match s.get_char (Char.ofNat 0) with
  | (s1, c) =>
    if !s1.good then some (s1, str)
    else if c ≠ dquote then some ((s1.unget).get_string str)
    else
      let flags := s1.skipws
      match quoted_loop (s1.rest.length + 1) { s1 with skipws := false } [] c with
      | Option.none => Option.none
      | some (s2, str2) => some ({ s2 with skipws := flags }, str2)

end IStream

/-! ## The tokenizer -/

/-- The loop of `split_args` (source lines 204-206):
`while (iss >> std::quoted(tok) || iss >> tok) out.push_back(tok);`.
`none` when the fuel runs out. -/
def split_args_loop : Nat → IStream → Str → List Str → Option (List Str)
  | 0, _, _, _ => Option.none
  | n + 1, iss, tok, out =>
    match iss.get_quoted tok with
    | Option.none => Option.none
    | some (iss1, tok1) =>
      if !iss1.fail then split_args_loop n iss1 tok1 (out ++ [tok1])
      else
        match iss1.get_string tok1 with
        | (iss2, tok2) =>
          if !iss2.fail then split_args_loop n iss2 tok2 (out ++ [tok2])
          else some out

/-- Source lines 200-208.  Every pass of the loop that pushes a token
extracts at least one character, so `line.size() + 1` passes suffice. -/
def split_args (line : Str) : Option (List Str) :=
  split_args_loop (line.length + 1) (IStream.ofString line) [] []

/-! ## The program state and the filesystem library -/

/-- The type of a file as `fs::file_status::type()` reports it, as far as
`do_ls` tells the cases apart. -/
inductive FileType
  | directory
  | regular
  | other
deriving DecidableEq, Repr

/-- The calls into the filesystem library, with their arguments. -/
inductive FsCall
  | current_path
  | set_current_path (p : Str)
  | fs_exists (p : Str)
  | is_directory (p : Str)
  | directory_iterator (p : Str)
  | recursive_directory_iterator (p : Str)
  | symlink_status (p : Str)
  | status (p : Str)
  | copy (src dst : Str)
  | create_directories (p : Str)
  | copy_file (src dst : Str)
  | rename (src dst : Str)
  | remove_all (p : Str)
  | permissions (p : Str) (prms : Nat)
  | ofstream_app (p : Str)
deriving DecidableEq, Repr

/-- The filesystem library over a filesystem state `σ`.  A query returns a
value or the `what()` of the exception it throws; a mutating call also
returns the next state.  A directory walk yields the entries it reaches and,
when an increment throws, the exception that ends it.  `parent_path` and
`filename` are the lexical members of `fs::path`. -/
structure FsApi (σ : Type) where
  current_path : σ → Except Str Str
  set_current_path : Str → σ → Except Str Unit × σ
  fs_exists : Str → σ → Except Str Bool
  is_directory : Str → σ → Except Str Bool
  directory_iterator : Str → σ → Except Str (List Str × Option Str)
  recursive_directory_iterator : Str → σ → Except Str (List Str × Option Str)
  symlink_status : Str → σ → Except Str FileType
  status_permissions : Str → σ → Except Str Nat
  copy : Str → Str → σ → Except Str Unit × σ
  create_directories : Str → σ → Except Str Unit × σ
  copy_file : Str → Str → σ → Except Str Unit × σ
  rename : Str → Str → σ → Except Str Unit × σ
  remove_all : Str → σ → Except Str Unit × σ
  permissions : Str → Nat → σ → Except Str Unit × σ
  ofstream_app : Str → σ → σ
  parent_path : Str → Str
  filename : Str → Str

/-- What the program can observe and change: the filesystem, the text
written to `std::cout`, and the log of library calls made so far. -/
structure World (σ : Type) where
  fs : σ
  out : Str
  calls : List FsCall

/-- Abnormal ends of a computation: a thrown `std::exception` with its
`what()`, a vector subscript past the end, and an exhausted tokenizer. -/
inductive Fault
  | exception (what : Str)
  | out_of_range
  | out_of_fuel
deriving DecidableEq, Repr

/-- A computation over the world that returns a value or ends in a fault. -/
def Prog (σ α : Type) : Type := World σ → Except Fault α × World σ

namespace Prog

def ret {σ α : Type} (a : α) : Prog σ α := fun w => (Except.ok a, w)

def andThen {σ α β : Type} (m : Prog σ α) (f : α → Prog σ β) : Prog σ β := fun w =>
  match m w with
  | (Except.ok a, w1) => f a w1
  | (Except.error e, w1) => (Except.error e, w1)

instance {σ : Type} : Monad (Prog σ) where
  pure := ret
  bind := andThen

/-- Throwing and faulting. -/
def raise {σ α : Type} (e : Fault) : Prog σ α := fun w => (Except.error e, w)

/-- The statement `std::cout << text`. -/
def print {σ : Type} (text : Str) : Prog σ Unit := fun w =>
  (Except.ok (), { w with out := w.out ++ text })

/-- A library query: logged, then answered from the current filesystem. -/
def query {σ α : Type} (c : FsCall) (f : σ → Except Str α) : Prog σ α := fun w =>
  let w1 := { w with calls := w.calls ++ [c] }
  match f w.fs with
  | Except.ok a => (Except.ok a, w1)
  | Except.error e => (Except.error (Fault.exception e), w1)

/-- A mutating library call: logged, then run on the current filesystem. -/
def mutate {σ α : Type} (c : FsCall) (f : σ → Except Str α × σ) : Prog σ α := fun w =>
  match f w.fs with
  | (Except.ok a, fs1) => (Except.ok a, { w with fs := fs1, calls := w.calls ++ [c] })
  | (Except.error e, fs1) =>
    (Except.error (Fault.exception e), { w with fs := fs1, calls := w.calls ++ [c] })

/-- The block `try body catch (const std::exception &e) handler` (and
`catch (...)`): a thrown exception runs the handler on the world as the
body left it; other faults pass through. -/
def try_catch {σ α : Type} (body : Prog σ α) (handler : Str → Prog σ α) : Prog σ α := fun w =>
  match body w with
  | (Except.error (Fault.exception e), w1) => handler e w1
  | r => r

/-- The subscript `args[i]` of a `std::vector`: a fault past the end. -/
def index {σ : Type} (args : List Str) (i : Nat) : Prog σ Str :=
  match args.get? i with
  | some a => ret a
  | Option.none => raise Fault.out_of_range

end Prog

open Prog

/-- The inserter `os << std::quoted(s)`, which is how `std::cout << path`
writes an `fs::path`: delimiters around the text, an escape before every
delimiter and escape character inside. -/
def quoted_out (s : Str) : Str :=
  [dquote] ++ (s.map fun c => if c = dquote ∨ c = backslash then [backslash, c] else [c]).flatten
    ++ [dquote]

/-! ## The commands -/

/-- Source lines 12-30. -/
def show_help {σ : Type} : Prog σ Unit :=
  print ("\nCommands:\n".toList
    ++ "  ls [path]                 - List directory (current dir if omitted)\n".toList
    ++ "  pwd                       - Show current directory\n".toList
    ++ "  cd <dir>                  - Change directory (relative or absolute)\n".toList
    ++ "  back                      - Go to parent directory\n".toList
    ++ "  copy <src> <dest>         - Copy file/directory (recursive)\n".toList
    ++ "  move <src> <dest>         - Move (rename) file/directory\n".toList
    ++ "  rm <path>                 - Delete file or directory (recursive)\n".toList
    ++ "  mkdir <dir>               - Create directory\n".toList
    ++ "  touch <file>              - Create empty file (like touch)\n".toList
    ++ "  search <name> [start_dir] - Recursively search for filename (or partial match)\n".toList
    ++ "  perms <path>              - Show owner/group/others rwx permissions\n".toList
    ++ "  chmod <path> <xyz>        - Set permissions using octal (e.g. 755)\n".toList
    ++ "  help                      - Show this help\n".toList
    ++ "  exit                      - Exit program\n".toList)

/-- The body of the `for` loop of `do_ls` (source lines 64-76) over the
entries the iterator yields. -/
def ls_entries {σ : Type} (api : FsApi σ) : List Str → Prog σ Unit
  | [] => ret ()
  | entry :: more => do
    let type ← try_catch
      (do
        let st ← query (FsCall.symlink_status entry) (api.symlink_status entry)
        if st = FileType.directory then ret "[DIR] ".toList
        else do
          let st2 ← query (FsCall.symlink_status entry) (api.symlink_status entry)
          if st2 = FileType.regular then ret "[FILE]".toList
          else ret "[OTHER]".toList)
      (fun _ => ret "[?]".toList)
    let name := api.filename entry
    let pstr ← try_catch
      (do
        let p ← query (FsCall.status entry) (api.status_permissions entry)
        ret (perms_to_string p))
      (fun _ => ret "---- ---- ---".toList)
    print (type ++ " ".toList ++ name ++ "  ".toList ++ pstr ++ "\n".toList)
    ls_entries api more

/-- The `try` block of `do_ls` (source lines 55-77). -/
def do_ls_try {σ : Type} (api : FsApi σ) (target : Str) : Prog σ Unit := do
  let ex ← query (FsCall.fs_exists target) (api.fs_exists target)
  if !ex then print ("Path does not exist: ".toList ++ quoted_out target ++ "\n".toList)
  else do
    let isdir ← query (FsCall.is_directory target) (api.is_directory target)
    if !isdir then print (quoted_out target ++ " is not a directory\n".toList)
    else do
      let walk ← query (FsCall.directory_iterator target) (api.directory_iterator target)
      ls_entries api walk.1
      match walk.2 with
      | some e => raise (Fault.exception e)
      | Option.none => ret ()

/-- Source lines 52-81.  The target is resolved before the `try` block. -/
def do_ls {σ : Type} (api : FsApi σ) (arg : Str) : Prog σ Unit := do
  let target ← if arg.isEmpty then query FsCall.current_path api.current_path else ret arg
  try_catch (do_ls_try api target)
    (fun e => print ("ls error: ".toList ++ e ++ "\n".toList))

/-- The `try` block of `do_cd` (source lines 86-90); `||` evaluates its
second operand only when the first is false. -/
def do_cd_try {σ : Type} (api : FsApi σ) (p : Str) : Prog σ Unit := do
  let ex ← query (FsCall.fs_exists p) (api.fs_exists p)
  let bad ← if !ex then ret true
    else do
      let isdir ← query (FsCall.is_directory p) (api.is_directory p)
      ret (!isdir)
  if bad then print ("Not a directory: ".toList ++ quoted_out p ++ "\n".toList)
  else mutate (FsCall.set_current_path p) (api.set_current_path p)

/-- Source lines 83-94.  The target is resolved before the `try` block. -/
def do_cd {σ : Type} (api : FsApi σ) (dir : Str) : Prog σ Unit := do
  let p ← if dir.isEmpty then query FsCall.current_path api.current_path else ret dir
  try_catch (do_cd_try api p)
    (fun e => print ("cd error: ".toList ++ e ++ "\n".toList))

/-- The `try` block of `do_copy` (source lines 98-105). -/
def do_copy_try {σ : Type} (api : FsApi σ) (src dest : Str) : Prog σ Unit := do
  let s := src
  let d := dest
  let ex ← query (FsCall.fs_exists s) (api.fs_exists s)
  if !ex then print "Source does not exist\n".toList
  else do
    let isdir ← query (FsCall.is_directory s) (api.is_directory s)
    if isdir then mutate (FsCall.copy s d) (api.copy s d)
    else do
      mutate (FsCall.create_directories (api.parent_path d))
        (api.create_directories (api.parent_path d))
      mutate (FsCall.copy_file s d) (api.copy_file s d)

/-- Source lines 96-109. -/
def do_copy {σ : Type} (api : FsApi σ) (src dest : Str) : Prog σ Unit :=
  try_catch (do_copy_try api src dest)
    (fun e => print ("copy error: ".toList ++ e ++ "\n".toList))

/-- The `try` block of `do_move` (source line 113). -/
def do_move_try {σ : Type} (api : FsApi σ) (src dest : Str) : Prog σ Unit :=
  mutate (FsCall.rename src dest) (api.rename src dest)

/-- Source lines 111-117. -/
def do_move {σ : Type} (api : FsApi σ) (src dest : Str) : Prog σ Unit :=
  try_catch (do_move_try api src dest)
    (fun e => print ("move error: ".toList ++ e ++ "\n".toList))

/-- The `try` block of `do_rm` (source lines 121-122). -/
def do_rm_try {σ : Type} (api : FsApi σ) (path : Str) : Prog σ Unit := do
  let ex ← query (FsCall.fs_exists path) (api.fs_exists path)
  if !ex then print "Path does not exist\n".toList
  else mutate (FsCall.remove_all path) (api.remove_all path)

/-- Source lines 119-126. -/
def do_rm {σ : Type} (api : FsApi σ) (path : Str) : Prog σ Unit :=
  try_catch (do_rm_try api path)
    (fun e => print ("rm error: ".toList ++ e ++ "\n".toList))

/-- The `try` block of `do_mkdir` (source lines 130-131). -/
def do_mkdir_try {σ : Type} (api : FsApi σ) (dir : Str) : Prog σ Unit := do
  let ex ← query (FsCall.fs_exists dir) (api.fs_exists dir)
  if ex then print "Already exists\n".toList
  else mutate (FsCall.create_directories dir) (api.create_directories dir)

/-- Source lines 128-135. -/
def do_mkdir {σ : Type} (api : FsApi σ) (dir : Str) : Prog σ Unit :=
  try_catch (do_mkdir_try api dir)
    (fun e => print ("mkdir error: ".toList ++ e ++ "\n".toList))

/-- Source lines 137-145.  The output file stream has no exception mask, so
opening and closing it never throws. -/
def do_touch {σ : Type} (api : FsApi σ) (file : Str) : Prog σ Unit :=
  try_catch
    (mutate (FsCall.ofstream_app file) (fun fs => (Except.ok (), api.ofstream_app file fs)))
    (fun e => print ("touch error: ".toList ++ e ++ "\n".toList))

/-- The test `fname.find(name) != std::string::npos`. -/
def str_contains (fname name : Str) : Bool :=
  fname.tails.any fun t => t.take name.length = name

/-- The body of the loop of `search_recursive` (source lines 151-156). -/
def search_entries {σ : Type} (api : FsApi σ) (name : Str) : List Str → Prog σ Unit
  | [] => ret ()
  | entry :: more => do
    try_catch
      (do
        let fname := api.filename entry
        if str_contains fname name then
          print ("Found: ".toList ++ quoted_out entry ++ "\n".toList)
        else ret ())
      (fun _ => ret ())
    search_entries api name more

/-- The `try` block of `search_recursive` (source lines 149-157). -/
def search_recursive_try {σ : Type} (api : FsApi σ) (start name : Str) : Prog σ Unit := do
  let walk ← query (FsCall.recursive_directory_iterator start)
    (api.recursive_directory_iterator start)
  search_entries api name walk.1
  match walk.2 with
  | some e => raise (Fault.exception e)
  | Option.none => ret ()

/-- Source lines 147-161. -/
def search_recursive {σ : Type} (api : FsApi σ) (start name : Str) : Prog σ Unit :=
  try_catch (search_recursive_try api start name)
    (fun e => print ("search error: ".toList ++ e ++ "\n".toList))

/-- The `try` block of `show_perms` (source lines 165-167). -/
def show_perms_try {σ : Type} (api : FsApi σ) (path : Str) : Prog σ Unit := do
  let ex ← query (FsCall.fs_exists path) (api.fs_exists path)
  if !ex then print "No such file\n".toList
  else do
    let p ← query (FsCall.status path) (api.status_permissions path)
    print ("Permissions: ".toList ++ perms_to_string p ++ "\n".toList)

/-- Source lines 163-171. -/
def show_perms {σ : Type} (api : FsApi σ) (path : Str) : Prog σ Unit :=
  try_catch (show_perms_try api path)
    (fun e => print ("perms error: ".toList ++ e ++ "\n".toList))

/-- The lambda `digit` of `do_chmod` (source line 181): `octal[i] - '0'`. -/
def digit (octal : Str) (i : Nat) : Int :=
  ((octal.getD i (Char.ofNat 0)).toNat : Int) - 48

/-- The lambda `set_from_digit` of `do_chmod` (source lines 185-189). -/
def set_from_digit (p : Nat) (d : Int) (r w x : Nat) : Nat :=
  let p := if Int.land d 4 ≠ 0 then p ||| r else p
  let p := if Int.land d 2 ≠ 0 then p ||| w else p
  let p := if Int.land d 1 ≠ 0 then p ||| x else p
  p

/-- The permission value `do_chmod` builds from the octal text (source
lines 181-192). -/
def chmod_perms (octal : Str) : Nat :=
  let p := perms.none
  let od := digit octal 0
  let gd := digit octal 1
  let td := digit octal 2
  let p := set_from_digit p od perms.owner_read perms.owner_write perms.owner_exec
  let p := set_from_digit p gd perms.group_read perms.group_write perms.group_exec
  let p := set_from_digit p td perms.others_read perms.others_write perms.others_exec
  p

/-- The `try` block of `do_chmod` (source lines 176-194). -/
def do_chmod_try {σ : Type} (api : FsApi σ) (path octal : Str) : Prog σ Unit := do
  let ex ← query (FsCall.fs_exists path) (api.fs_exists path)
  if !ex then print "No such file\n".toList
  else if octal.length ≠ 3 || !octal.all isdigit then
    print "chmod expects a 3-digit octal like 755\n".toList
  else
    mutate (FsCall.permissions path (chmod_perms octal))
      (api.permissions path (chmod_perms octal))

/-- Source lines 174-198. -/
def do_chmod {σ : Type} (api : FsApi σ) (path octal : Str) : Prog σ Unit :=
  try_catch (do_chmod_try api path octal)
    (fun e => print ("chmod error: ".toList ++ e ++ "\n".toList))

/-! ## The read-eval-print loop -/

/-- The two states of the loop of `main`. -/
inductive LoopState
  | Running
  | Exiting
deriving DecidableEq, Repr

/-- Source lines 227-281: the dispatch on the first token. -/
def dispatch {σ : Type} (api : FsApi σ) (args : List Str) : Prog σ LoopState := do
  let cmd ← index args 0
  if cmd = "exit".toList then ret LoopState.Exiting
  else if cmd = "help".toList then do
    show_help
    ret LoopState.Running
  else if cmd = "ls".toList then do
    if args.length ≥ 2 then do
      let a1 ← index args 1
      do_ls api a1
    else do_ls api []
    ret LoopState.Running
  else if cmd = "pwd".toList then do
    try_catch
      (do
        let p ← query FsCall.current_path api.current_path
        print (quoted_out p ++ "\n".toList))
      (fun _ => print "?\n".toList)
    ret LoopState.Running
  else if cmd = "cd".toList then do
    if args.length ≥ 2 then do
      let a1 ← index args 1
      do_cd api a1
    else print "cd requires a directory argument\n".toList
    ret LoopState.Running
  else if cmd = "back".toList then do
    try_catch
      (do
        let p ← query FsCall.current_path api.current_path
        mutate (FsCall.set_current_path (api.parent_path p))
          (api.set_current_path (api.parent_path p)))
      (fun _ => print "Cannot go back\n".toList)
    ret LoopState.Running
  else if cmd = "copy".toList then do
    if args.length ≥ 3 then do
      let a1 ← index args 1
      let a2 ← index args 2
      do_copy api a1 a2
    else print "Usage: copy <src> <dest>\n".toList
    ret LoopState.Running
  else if cmd = "move".toList then do
    if args.length ≥ 3 then do
      let a1 ← index args 1
      let a2 ← index args 2
      do_move api a1 a2
    else print "Usage: move <src> <dest>\n".toList
    ret LoopState.Running
  else if cmd = "rm".toList then do
    if args.length ≥ 2 then do
      let a1 ← index args 1
      do_rm api a1
    else print "Usage: rm <path>\n".toList
    ret LoopState.Running
  else if cmd = "mkdir".toList then do
    if args.length ≥ 2 then do
      let a1 ← index args 1
      do_mkdir api a1
    else print "Usage: mkdir <dir>\n".toList
    ret LoopState.Running
  else if cmd = "touch".toList then do
    if args.length ≥ 2 then do
      let a1 ← index args 1
      do_touch api a1
    else print "Usage: touch <file>\n".toList
    ret LoopState.Running
  else if cmd = "search".toList then do
    if args.length ≥ 2 then do
      let start ← if args.length ≥ 3 then index args 2
        else query FsCall.current_path api.current_path
      let a1 ← index args 1
      search_recursive api start a1
    else print "Usage: search <name> [start_dir]\n".toList
    ret LoopState.Running
  else if cmd = "perms".toList then do
    if args.length ≥ 2 then do
      let a1 ← index args 1
      show_perms api a1
    else print "Usage: perms <path>\n".toList
    ret LoopState.Running
  else if cmd = "chmod".toList then do
    if args.length ≥ 3 then do
      let a1 ← index args 1
      let a2 ← index args 2
      do_chmod api a1 a2
    else print "Usage: chmod <path> <3-digit-octal>\n".toList
    ret LoopState.Running
  else do
    print "Unknown command. Type 'help' for list of commands.\n".toList
    ret LoopState.Running

/-- Source lines 216-220: the prompt. -/
def prompt {σ : Type} (api : FsApi σ) : Prog σ Unit :=
  try_catch
    (do
      print "\n[".toList
      let p ← query FsCall.current_path api.current_path
      print (quoted_out p ++ "]> ".toList))
    (fun _ => print "\n[unknown]> ".toList)

/-- Source lines 222-281: what one pass of the loop does with a line that
`std::getline` has read. -/
def process_line {σ : Type} (api : FsApi σ) (line : Str) : Prog σ LoopState :=
  if line.isEmpty then ret LoopState.Running
  else
    match split_args line with
    | Option.none => raise Fault.out_of_fuel
    | some args =>
      if args.isEmpty then ret LoopState.Running
      else dispatch api args

/-- One pass of the loop of `main` (source lines 215-282).  `input` is what
`std::getline` delivers: a line, or nothing at the end of input. -/
def main_step {σ : Type} (api : FsApi σ) (input : Option Str) : Prog σ LoopState := do
  prompt api
  match input with
  | Option.none => ret LoopState.Exiting
  | some line => process_line api line

/-! ## Definitions used to state the properties -/

/-- The octal text of a permission value in the words of the specification
(section 3): each digit is `4*read + 2*write + 1*execute`, for owner, group
and others in that order.  The source has no such function; it is the
reading against which `chmod_perms` is compared. -/
def encode_as_octal (p : Nat) : Str :=
  let d (r w x : Nat) : Nat :=
    4 * (if p &&& r ≠ 0 then 1 else 0) + 2 * (if p &&& w ≠ 0 then 1 else 0)
      + 1 * (if p &&& x ≠ 0 then 1 else 0)
  [ Char.ofNat (48 + d perms.owner_read perms.owner_write perms.owner_exec),
    Char.ofNat (48 + d perms.group_read perms.group_write perms.group_exec),
    Char.ofNat (48 + d perms.others_read perms.others_write perms.others_exec) ]

/-- The value of an octal digit character. -/
def octal_value (c : Char) : Nat := c.toNat - 48

/-- The `rwx` rendering of one octal digit: `r` for its 4 bit, `w` for its 2
bit, `x` for its 1 bit, `-` for a clear bit. -/
def rwx_of_digit (d : Nat) : Str :=
  [ if d.testBit 2 then 'r' else '-', if d.testBit 1 then 'w' else '-',
    if d.testBit 0 then 'x' else '-' ]

/-- A small concrete filesystem for evaluating the commands: regular files
with their permission values, paths whose status cannot be read, and what
`fs::current_path()` answers. -/
structure ToyFs where
  files : List (Str × Nat)
  denied : List Str
  cwd : Except Str Str

/-- The library over `ToyFs`: every path in the table is a regular file, and
a query on a denied path throws. -/
def toy_api : FsApi ToyFs where
  current_path fs := fs.cwd
  set_current_path _ fs := (Except.error "Not a directory".toList, fs)
  fs_exists p fs :=
    if p ∈ fs.denied then Except.error "Permission denied".toList
    else Except.ok (fs.files.lookup p).isSome
  is_directory p fs :=
    if p ∈ fs.denied then Except.error "Permission denied".toList else Except.ok false
  directory_iterator _ _ := Except.error "Not a directory".toList
  recursive_directory_iterator _ _ := Except.error "Not a directory".toList
  symlink_status _ _ := Except.ok FileType.regular
  status_permissions p fs :=
    match fs.files.lookup p with
    | some v => Except.ok v
    | Option.none => Except.error "No such file or directory".toList
  copy _ _ fs := (Except.error "Not a directory".toList, fs)
  create_directories _ fs := (Except.ok (), fs)
  copy_file s d fs :=
    match fs.files.lookup s with
    | some v => (Except.ok (), { fs with files := (d, v) :: fs.files.filter (fun e => e.1 ≠ d) })
    | Option.none => (Except.error "No such file or directory".toList, fs)
  rename s d fs :=
    match fs.files.lookup s with
    | some v =>
      (Except.ok (),
        { fs with files := (d, v) :: fs.files.filter (fun e => e.1 ≠ d ∧ e.1 ≠ s) })
    | Option.none => (Except.error "No such file or directory".toList, fs)
  remove_all p fs := (Except.ok (), { fs with files := fs.files.filter (fun e => e.1 ≠ p) })
  permissions p v fs :=
    if (fs.files.lookup p).isSome then
      (Except.ok (), { fs with files := fs.files.map (fun e => if e.1 = p then (p, v) else e) })
    else (Except.error "No such file or directory".toList, fs)
  ofstream_app p fs :=
    if (fs.files.lookup p).isSome then fs else { fs with files := (p, 0o644) :: fs.files }
  parent_path p := p
  filename p := p

/-- A world with one file `f.txt` of mode 0600 and one unreadable path, in
directory `/tmp`. -/
def toy_world : World ToyFs :=
  { fs := { files := [("f.txt".toList, 0o600)], denied := ["locked".toList],
            cwd := Except.ok "/tmp".toList },
    out := [], calls := [] }

/-- The same world after the current directory has been removed, so that
`fs::current_path()` throws. -/
def toy_world_no_cwd : World ToyFs :=
  { fs := { files := [("f.txt".toList, 0o600)], denied := ["locked".toList],
            cwd := Except.error "cannot get current path: No such file or directory".toList },
    out := [], calls := [] }

/-- The world after a command has written `text` and made the library
calls `cs`, the filesystem as it was. -/
def World.say {σ : Type} (w : World σ) (text : Str) (cs : List FsCall) : World σ :=
  { w with out := w.out ++ text, calls := w.calls ++ cs }

/-- The stream at the head of the tokenizer loop: no failure, `skipws` set. -/
def loop_head (cons rest : Str) (eof : Bool) : IStream :=
  { consumed := cons, rest := rest, eofbit := eof, failbit := false, badbit := false,
    skipws := true }

/-- The line each command prints when it has too few arguments (source lines
240-277). -/
def usage_message (cmd : Str) : Str :=
  if cmd = "cd".toList then "cd requires a directory argument\n".toList
  else if cmd = "copy".toList then "Usage: copy <src> <dest>\n".toList
  else if cmd = "move".toList then "Usage: move <src> <dest>\n".toList
  else if cmd = "rm".toList then "Usage: rm <path>\n".toList
  else if cmd = "mkdir".toList then "Usage: mkdir <dir>\n".toList
  else if cmd = "touch".toList then "Usage: touch <file>\n".toList
  else if cmd = "search".toList then "Usage: search <name> [start_dir]\n".toList
  else if cmd = "perms".toList then "Usage: perms <path>\n".toList
  else if cmd = "chmod".toList then "Usage: chmod <path> <3-digit-octal>\n".toList
  else []

/-- The maximal runs of non-whitespace characters of a line, in order. -/
def ws_runs (line : Str) : List Str :=
  (line.splitOnP isspace).filter fun run => !run.isEmpty

/-- A computation whose only abnormal end is a thrown exception: it reads
no token past the end and does not exhaust the tokenizer. -/
def Prog.throws_only {σ α : Type} (m : Prog σ α) : Prop :=
  ∀ w f, (m w).1 = Except.error f → ∃ e, f = Fault.exception e

/-- A computation that returns normally from the world `w`. -/
def Prog.returns_at {σ α : Type} (m : Prog σ α) (w : World σ) : Prop :=
  ∃ a, (m w).1 = Except.ok a

/-! ## Properties -/

/-! ### Permission codec -/

theorem land_two_pow_ne_zero (p k : Nat) : (p &&& 2 ^ k ≠ 0) ↔ p.testBit k = true := by
  rw [Nat.and_two_pow]
  cases h : p.testBit k <;> simp

theorem octal_char_cases (c : Char) (h : '0' ≤ c ∧ c ≤ '7') :
    c = '0' ∨ c = '1' ∨ c = '2' ∨ c = '3' ∨ c = '4' ∨ c = '5' ∨ c = '6' ∨ c = '7' := by
  obtain ⟨h1, h2⟩ := h
  have e : c = Char.ofNat c.toNat := (Char.ofNat_toNat c).symm
  have h1a : 48 ≤ c.toNat := h1
  have h2a : c.toNat ≤ 55 := h2
  generalize c.toNat = n at e h1a h2a
  subst e
  interval_cases n <;> simp

theorem isdigit_iff (c : Char) : isdigit c = true ↔ ('0' ≤ c ∧ c ≤ '9') := by
  have a : ('0' ≤ c) ↔ 48 ≤ c.toNat := Iff.rfl
  have b : (c ≤ '9') ↔ c.toNat ≤ 57 := Iff.rfl
  simp [isdigit, a, b]

theorem perms_to_string_bits (p : Nat) :
    perms_to_string p =
      [ if p.testBit 8 then 'r' else '-', if p.testBit 7 then 'w' else '-',
        if p.testBit 6 then 'x' else '-', ' ',
        if p.testBit 5 then 'r' else '-', if p.testBit 4 then 'w' else '-',
        if p.testBit 3 then 'x' else '-', ' ',
        if p.testBit 2 then 'r' else '-', if p.testBit 1 then 'w' else '-',
        if p.testBit 0 then 'x' else '-' ] := by
  have h8 : p &&& 256 ≠ 0 ↔ p.testBit 8 = true := land_two_pow_ne_zero p 8
  have h7 : p &&& 128 ≠ 0 ↔ p.testBit 7 = true := land_two_pow_ne_zero p 7
  have h6 : p &&& 64 ≠ 0 ↔ p.testBit 6 = true := land_two_pow_ne_zero p 6
  have h5 : p &&& 32 ≠ 0 ↔ p.testBit 5 = true := land_two_pow_ne_zero p 5
  have h4 : p &&& 16 ≠ 0 ↔ p.testBit 4 = true := land_two_pow_ne_zero p 4
  have h3 : p &&& 8 ≠ 0 ↔ p.testBit 3 = true := land_two_pow_ne_zero p 3
  have h2 : p &&& 4 ≠ 0 ↔ p.testBit 2 = true := land_two_pow_ne_zero p 2
  have h1 : p &&& 2 ≠ 0 ↔ p.testBit 1 = true := land_two_pow_ne_zero p 1
  have h0 : p &&& 1 ≠ 0 ↔ p.testBit 0 = true := land_two_pow_ne_zero p 0
  simp only [perms_to_string, perms.owner_read, perms.owner_write, perms.owner_exec,
    perms.group_read, perms.group_write, perms.group_exec, perms.others_read,
    perms.others_write, perms.others_exec, perms.none, List.nil_append, List.cons_append,
    List.singleton_append]
  simp only [h8, h7, h6, h5, h4, h3, h2, h1, h0]

/-- C1.  For every permission value `p`, `perms_to_string p` has 11
characters, a space at index 3 and at index 7, and at the nine other
positions, from owner-read to others-exec, the letter `r`, `w` or `x` of the
position when the bit of `p` is set and `-` when it is not; all nine bits
set gives `rwx rwx rwx` and no bit set gives `--- --- ---`. -/
theorem perms_to_string_shape (p : Nat) :
    (perms_to_string p).length = 11 ∧
    (perms_to_string p).get? 3 = some ' ' ∧ (perms_to_string p).get? 7 = some ' ' ∧
    (perms_to_string p).get? 0 = some (if p &&& perms.owner_read ≠ 0 then 'r' else '-') ∧
    (perms_to_string p).get? 1 = some (if p &&& perms.owner_write ≠ 0 then 'w' else '-') ∧
    (perms_to_string p).get? 2 = some (if p &&& perms.owner_exec ≠ 0 then 'x' else '-') ∧
    (perms_to_string p).get? 4 = some (if p &&& perms.group_read ≠ 0 then 'r' else '-') ∧
    (perms_to_string p).get? 5 = some (if p &&& perms.group_write ≠ 0 then 'w' else '-') ∧
    (perms_to_string p).get? 6 = some (if p &&& perms.group_exec ≠ 0 then 'x' else '-') ∧
    (perms_to_string p).get? 8 = some (if p &&& perms.others_read ≠ 0 then 'r' else '-') ∧
    (perms_to_string p).get? 9 = some (if p &&& perms.others_write ≠ 0 then 'w' else '-') ∧
    (perms_to_string p).get? 10 = some (if p &&& perms.others_exec ≠ 0 then 'x' else '-') ∧
    perms_to_string p =
      [ if p.testBit 8 then 'r' else '-', if p.testBit 7 then 'w' else '-',
        if p.testBit 6 then 'x' else '-', ' ',
        if p.testBit 5 then 'r' else '-', if p.testBit 4 then 'w' else '-',
        if p.testBit 3 then 'x' else '-', ' ',
        if p.testBit 2 then 'r' else '-', if p.testBit 1 then 'w' else '-',
        if p.testBit 0 then 'x' else '-' ] ∧
    perms_to_string 0o777 = "rwx rwx rwx".toList ∧
    perms_to_string 0 = "--- --- ---".toList := by
  refine ⟨rfl, rfl, rfl, rfl, rfl, rfl, rfl, rfl, rfl, rfl, rfl, rfl, perms_to_string_bits p,
    ?_, ?_⟩ <;> decide

theorem chmod_perms_value (a b c : Char) (ha : '0' ≤ a ∧ a ≤ '7') (hb : '0' ≤ b ∧ b ≤ '7')
    (hc : '0' ≤ c ∧ c ≤ '7') :
    chmod_perms [a, b, c] = 64 * octal_value a + 8 * octal_value b + octal_value c := by
  rcases octal_char_cases a ha with rfl | rfl | rfl | rfl | rfl | rfl | rfl | rfl <;>
  rcases octal_char_cases b hb with rfl | rfl | rfl | rfl | rfl | rfl | rfl | rfl <;>
  rcases octal_char_cases c hc with rfl | rfl | rfl | rfl | rfl | rfl | rfl | rfl <;>
  rfl

theorem octal_value_lt (c : Char) (h : '0' ≤ c ∧ c ≤ '7') :
    octal_value c < 8 ∧ Char.ofNat (48 + octal_value c) = c := by
  rcases octal_char_cases c h with rfl | rfl | rfl | rfl | rfl | rfl | rfl | rfl <;> decide

set_option maxRecDepth 100000 in
theorem octal_codec_fin : ∀ x y z : Fin 8,
    ((64 * x.val + 8 * y.val + z.val) &&& perms.owner_read ≠ 0 ↔ x.val &&& 4 ≠ 0) ∧
    ((64 * x.val + 8 * y.val + z.val) &&& perms.owner_write ≠ 0 ↔ x.val &&& 2 ≠ 0) ∧
    ((64 * x.val + 8 * y.val + z.val) &&& perms.owner_exec ≠ 0 ↔ x.val &&& 1 ≠ 0) ∧
    ((64 * x.val + 8 * y.val + z.val) &&& perms.group_read ≠ 0 ↔ y.val &&& 4 ≠ 0) ∧
    ((64 * x.val + 8 * y.val + z.val) &&& perms.group_write ≠ 0 ↔ y.val &&& 2 ≠ 0) ∧
    ((64 * x.val + 8 * y.val + z.val) &&& perms.group_exec ≠ 0 ↔ y.val &&& 1 ≠ 0) ∧
    ((64 * x.val + 8 * y.val + z.val) &&& perms.others_read ≠ 0 ↔ z.val &&& 4 ≠ 0) ∧
    ((64 * x.val + 8 * y.val + z.val) &&& perms.others_write ≠ 0 ↔ z.val &&& 2 ≠ 0) ∧
    ((64 * x.val + 8 * y.val + z.val) &&& perms.others_exec ≠ 0 ↔ z.val &&& 1 ≠ 0) ∧
    (64 * x.val + 8 * y.val + z.val) < 512 ∧
    encode_as_octal (64 * x.val + 8 * y.val + z.val)
      = [Char.ofNat (48 + x.val), Char.ofNat (48 + y.val), Char.ofNat (48 + z.val)] ∧
    perms_to_string (64 * x.val + 8 * y.val + z.val)
      = rwx_of_digit x.val ++ [' '] ++ rwx_of_digit y.val ++ [' '] ++ rwx_of_digit z.val := by
  decide

theorem do_chmod_valid {σ : Type} (api : FsApi σ) (w : World σ) (path octal : Str)
    (hex : api.fs_exists path w.fs = Except.ok true)
    (hlen : octal.length = 3) (hdig : octal.all isdigit = true) :
    (do_chmod api path octal w).2.calls
        = w.calls ++ [FsCall.fs_exists path, FsCall.permissions path (chmod_perms octal)] ∧
    (do_chmod api path octal w).2.fs = (api.permissions path (chmod_perms octal) w.fs).2 := by
  simp only [do_chmod, do_chmod_try, try_catch, bind, andThen, query, hex, mutate, print]
  simp [hlen, hdig]
  rcases h : api.permissions path (chmod_perms octal) w.fs with ⟨r, fs1⟩
  cases r <;> simp [mutate, h, print]

/-- C2.  For three characters `a b c`, each in `'0'..'7'`, and an existing
path, `do_chmod` hands the value `chmod_perms [a, b, c]` to
`fs::permissions`; that value has the read, write and execute bit of owner,
group and others set exactly when the 4, 2 and 1 bit of the first, second
and third digit is set, and no other bit; writing it back as octal text
returns `[a, b, c]`, so decoding is stable under the round trip; and
`perms_to_string` of it is the `rwx` rendering of the three digits, which
for `644` is `rw- r-- r--`. -/
theorem chmod_octal_round_trip {σ : Type} (api : FsApi σ) (w : World σ) (path : Str)
    (a b c : Char) (ha : '0' ≤ a ∧ a ≤ '7') (hb : '0' ≤ b ∧ b ≤ '7') (hc : '0' ≤ c ∧ c ≤ '7')
    (hex : api.fs_exists path w.fs = Except.ok true) :
    ((do_chmod api path [a, b, c] w).2.calls
        = w.calls ++ [FsCall.fs_exists path, FsCall.permissions path (chmod_perms [a, b, c])] ∧
      (do_chmod api path [a, b, c] w).2.fs
        = (api.permissions path (chmod_perms [a, b, c]) w.fs).2) ∧
    (chmod_perms [a, b, c] &&& perms.owner_read ≠ 0 ↔ octal_value a &&& 4 ≠ 0) ∧
    (chmod_perms [a, b, c] &&& perms.owner_write ≠ 0 ↔ octal_value a &&& 2 ≠ 0) ∧
    (chmod_perms [a, b, c] &&& perms.owner_exec ≠ 0 ↔ octal_value a &&& 1 ≠ 0) ∧
    (chmod_perms [a, b, c] &&& perms.group_read ≠ 0 ↔ octal_value b &&& 4 ≠ 0) ∧
    (chmod_perms [a, b, c] &&& perms.group_write ≠ 0 ↔ octal_value b &&& 2 ≠ 0) ∧
    (chmod_perms [a, b, c] &&& perms.group_exec ≠ 0 ↔ octal_value b &&& 1 ≠ 0) ∧
    (chmod_perms [a, b, c] &&& perms.others_read ≠ 0 ↔ octal_value c &&& 4 ≠ 0) ∧
    (chmod_perms [a, b, c] &&& perms.others_write ≠ 0 ↔ octal_value c &&& 2 ≠ 0) ∧
    (chmod_perms [a, b, c] &&& perms.others_exec ≠ 0 ↔ octal_value c &&& 1 ≠ 0) ∧
    chmod_perms [a, b, c] < 0o1000 ∧
    encode_as_octal (chmod_perms [a, b, c]) = [a, b, c] ∧
    chmod_perms (encode_as_octal (chmod_perms [a, b, c])) = chmod_perms [a, b, c] ∧
    perms_to_string (chmod_perms [a, b, c])
      = rwx_of_digit (octal_value a) ++ [' '] ++ rwx_of_digit (octal_value b) ++ [' ']
          ++ rwx_of_digit (octal_value c) ∧
    perms_to_string (chmod_perms "644".toList) = "rw- r-- r--".toList := by
  have hdig : ([a, b, c] : Str).all isdigit = true := by
    have h9 : ∀ x : Char, ('0' ≤ x ∧ x ≤ '7') → isdigit x = true := by
      intro x hx
      rcases octal_char_cases x hx with rfl | rfl | rfl | rfl | rfl | rfl | rfl | rfl <;> decide
    simp [h9 a ha, h9 b hb, h9 c hc]
  have hv := chmod_perms_value a b c ha hb hc
  obtain ⟨la, ea⟩ := octal_value_lt a ha
  obtain ⟨lb, eb⟩ := octal_value_lt b hb
  obtain ⟨lc, ec⟩ := octal_value_lt c hc
  have hf := octal_codec_fin ⟨octal_value a, la⟩ ⟨octal_value b, lb⟩ ⟨octal_value c, lc⟩
  simp only [ea, eb, ec] at hf
  obtain ⟨f1, f2, f3, f4, f5, f6, f7, f8, f9, f10, f11, f12⟩ := hf
  have henc : encode_as_octal (chmod_perms [a, b, c]) = [a, b, c] := by rw [hv]; exact f11
  refine ⟨do_chmod_valid api w path [a, b, c] hex rfl hdig, ?_, ?_, ?_, ?_, ?_, ?_, ?_, ?_, ?_,
    ?_, henc, ?_, ?_, ?_⟩
  · rw [hv]; exact f1
  · rw [hv]; exact f2
  · rw [hv]; exact f3
  · rw [hv]; exact f4
  · rw [hv]; exact f5
  · rw [hv]; exact f6
  · rw [hv]; exact f7
  · rw [hv]; exact f8
  · rw [hv]; exact f9
  · rw [hv]; exact f10
  · rw [henc]
  · rw [hv]; exact f12
  · decide

/-- Witness for C2 over the toy filesystem: `chmod f.txt 644`. -/
theorem chmod_octal_round_trip_witness :
    (do_chmod toy_api "f.txt".toList "644".toList toy_world).2.calls
      = [FsCall.fs_exists "f.txt".toList, FsCall.permissions "f.txt".toList 0o644] ∧
    (do_chmod toy_api "f.txt".toList "644".toList toy_world).2.fs.files
      = [("f.txt".toList, 0o644)] ∧
    encode_as_octal (chmod_perms "644".toList) = "644".toList ∧
    perms_to_string (chmod_perms "644".toList) = "rw- r-- r--".toList :=
  have h := chmod_octal_round_trip toy_api toy_world "f.txt".toList '6' '4' '4'
    (by decide) (by decide) (by decide) (by rfl)
  ⟨h.1.1, (congrArg ToyFs.files h.1.2).trans rfl, h.2.2.2.2.2.2.2.2.2.2.2.1, h.2.2.2.2.2.2.2.2.2.2.2.2.2.2⟩

theorem do_chmod_malformed_run {σ : Type} (api : FsApi σ) (w : World σ) (path octal : Str)
    (hex : api.fs_exists path w.fs = Except.ok true)
    (hbad : octal.length ≠ 3 ∨ ∃ c ∈ octal, ¬ ('0' ≤ c ∧ c ≤ '9')) :
    do_chmod api path octal w
      = (Except.ok (), w.say "chmod expects a 3-digit octal like 755\n".toList
          [FsCall.fs_exists path]) := by
  have hcond : (octal.length ≠ 3 || !octal.all isdigit) = true := by
    rcases hbad with h | ⟨c, hc, hnd⟩
    · simp [h]
    · have : octal.all isdigit = false := by
        rw [List.all_eq_false]
        exact ⟨c, hc, by rw [isdigit_iff]; exact hnd⟩
      simp [this]
  simp only [do_chmod, do_chmod_try, try_catch, bind, andThen, query, hex, print, World.say]
  simp only [Bool.not_true, Bool.false_eq_true, if_false, hcond, if_true]
  rfl

/-- C3.  For an existing path and an octal text whose length is not 3 or
which holds a character that is not a decimal digit, `do_chmod` writes the
format error, leaves the filesystem as it was, and its only library call is
the existence test: no permission is set. -/
theorem do_chmod_rejects_malformed {σ : Type} (api : FsApi σ) (w : World σ) (path octal : Str)
    (hex : api.fs_exists path w.fs = Except.ok true)
    (hbad : octal.length ≠ 3 ∨ ∃ c ∈ octal, ¬ ('0' ≤ c ∧ c ≤ '9')) :
    do_chmod api path octal w
      = (Except.ok (), w.say "chmod expects a 3-digit octal like 755\n".toList
          [FsCall.fs_exists path]) ∧
    (do_chmod api path octal w).2.fs = w.fs ∧
    ∀ p v, FsCall.permissions p v ∈ (do_chmod api path octal w).2.calls →
      FsCall.permissions p v ∈ w.calls := by
  have hrun := do_chmod_malformed_run api w path octal hex hbad
  refine ⟨hrun, ?_, ?_⟩
  · rw [hrun]; rfl
  · intro p v hmem
    rw [hrun] at hmem
    simpa [World.say] using hmem

/-- Witness for C3 over the toy filesystem: `chmod f.txt 75`, `abc`, `7550`. -/
theorem do_chmod_rejects_malformed_witness :
    (do_chmod toy_api "f.txt".toList "75".toList toy_world).2.out
      = "chmod expects a 3-digit octal like 755\n".toList ∧
    (do_chmod toy_api "f.txt".toList "abc".toList toy_world).2.out
      = "chmod expects a 3-digit octal like 755\n".toList ∧
    (do_chmod toy_api "f.txt".toList "7550".toList toy_world).2.out
      = "chmod expects a 3-digit octal like 755\n".toList ∧
    (do_chmod toy_api "f.txt".toList "75".toList toy_world).2.fs.files = toy_world.fs.files :=
  ⟨by rw [(do_chmod_rejects_malformed toy_api toy_world "f.txt".toList "75".toList (by rfl)
            (Or.inl (by decide))).1]; rfl,
   by rw [(do_chmod_rejects_malformed toy_api toy_world "f.txt".toList "abc".toList (by rfl)
            (Or.inr ⟨'a', by decide, by decide⟩)).1]; rfl,
   by rw [(do_chmod_rejects_malformed toy_api toy_world "f.txt".toList "7550".toList (by rfl)
            (Or.inl (by decide))).1]; rfl,
   by rw [(do_chmod_rejects_malformed toy_api toy_world "f.txt".toList "75".toList (by rfl)
            (Or.inl (by decide))).2.1]⟩

/-- C4.  On the text `888`, three decimal digits none of which is octal,
`do_chmod` writes nothing and calls `fs::permissions` with the empty
permission set, so the file's mode becomes 000; on `999` it sets mode 111. -/
theorem do_chmod_accepts_888 :
    (do_chmod toy_api "f.txt".toList "888".toList toy_world).1 = Except.ok () ∧
    (do_chmod toy_api "f.txt".toList "888".toList toy_world).2.out = [] ∧
    (do_chmod toy_api "f.txt".toList "888".toList toy_world).2.calls
      = [FsCall.fs_exists "f.txt".toList, FsCall.permissions "f.txt".toList 0] ∧
    (do_chmod toy_api "f.txt".toList "888".toList toy_world).2.fs.files
      = [("f.txt".toList, 0)] ∧
    (do_chmod toy_api "f.txt".toList "999".toList toy_world).2.calls
      = [FsCall.fs_exists "f.txt".toList, FsCall.permissions "f.txt".toList 0o111] := by
  refine ⟨rfl, rfl, rfl, rfl, rfl⟩

/-! ### Runs of non-whitespace characters -/

theorem splitOnP_unfold (f : Char → Bool) (xs : Str) :
    xs.splitOnP f = xs.takeWhile (fun c => !f c) ::
      (match xs.dropWhile (fun c => !f c) with
        | [] => []
        | _ :: r => r.splitOnP f) := by
  induction xs with
  | nil => simp
  | cons x xs ih =>
    rw [List.splitOnP_cons]
    by_cases h : f x = true
    · simp [h]
    · simp only [h, Bool.false_eq_true, if_false]
      rw [ih]
      simp [h]

theorem ws_runs_cons_space (x : Char) (xs : Str) (h : isspace x = true) :
    ws_runs (x :: xs) = ws_runs xs := by
  simp [ws_runs, List.splitOnP_cons, h]

theorem ws_runs_word (c : Char) (q : Str) (h : isspace c = false) :
    ws_runs (c :: q) = (c :: q).takeWhile (fun c => !isspace c) ::
      ws_runs ((c :: q).dropWhile (fun c => !isspace c)) := by
  unfold ws_runs
  rw [splitOnP_unfold isspace (c :: q)]
  have hne : ((c :: q).takeWhile (fun c => !isspace c)) ≠ [] := by simp [h]
  rw [List.filter_cons_of_pos (by simpa using hne)]
  congr 1
  cases hd : (c :: q).dropWhile (fun c => !isspace c) with
  | nil => simp
  | cons s r =>
    have hs : isspace s = true := by
      have := List.head_dropWhile_not (fun c => !isspace c) (c :: q) (by simp [hd])
      simpa [hd] using this
    simp [List.splitOnP_cons, hs]

theorem ws_runs_skip (l : Str) : ws_runs l = ws_runs (l.dropWhile isspace) := by
  induction l with
  | nil => rfl
  | cons x xs ih =>
    by_cases h : isspace x = true
    · rw [ws_runs_cons_space x xs h, ih]; simp [h]
    · simp [h]

theorem ws_runs_nil : ws_runs [] = [] := by decide

/-! ### The stream extractors on a stream at the head of the tokenizer loop -/

theorem dquote_not_space : isspace dquote = false := by decide

theorem takeWhile_append_of_stop (f : Char → Bool) (l t : Str) (h : ∃ x ∈ l, f x = false) :
    (l ++ t).takeWhile f = l.takeWhile f ∧ (l ++ t).dropWhile f = l.dropWhile f ++ t := by
  induction l with
  | nil => simp at h
  | cons x xs ih =>
    by_cases hx : f x = true
    · have h2 : ∃ y ∈ xs, f y = false := by
        obtain ⟨y, hy, hfy⟩ := h
        rcases List.mem_cons.1 hy with rfl | hy
        · simp [hx] at hfy
        · exact ⟨y, hy, hfy⟩
      simp [hx, ih h2]
    · simp [hx]

theorem getLast?_dropWhile (f : Char → Bool) (l : Str) (h : l.dropWhile f ≠ []) :
    (l.dropWhile f).getLast? = l.getLast? := by
  induction l with
  | nil => simp at h
  | cons x xs ih =>
    by_cases hx : f x = true
    · simp only [List.dropWhile_cons, hx, if_true] at h ⊢
      rw [ih h]
      cases xs with
      | nil => simp at h
      | cons y ys => simp [List.getLast?_cons_cons]
    · simp [hx]

theorem exists_space_of_getLast? (l : Str) (hne : l ≠ [])
    (h : ∀ c ∈ l.getLast?, isspace c = true) : ∃ x ∈ l, (!isspace x) = false := by
  refine ⟨l.getLast hne, List.getLast_mem hne, ?_⟩
  have := h (l.getLast hne) (by simp [List.getLast?_eq_getLast _ hne])
  simp [this]

theorem split_args_loop_stop_eof (n : Nat) (cons : Str) (tok : Str) (out : List Str) :
    split_args_loop (n + 1) (loop_head cons [] true) tok out = some out := by
  simp [split_args_loop, loop_head, IStream.get_quoted, IStream.get_char, IStream.sentry,
    IStream.good, IStream.fail, IStream.get_string]

theorem split_args_loop_stop_blank (n : Nat) (cons rest : Str) (tok : Str) (out : List Str)
    (h : rest.dropWhile isspace = []) :
    split_args_loop (n + 1) (loop_head cons rest false) tok out = some out := by
  simp [split_args_loop, loop_head, IStream.get_quoted, IStream.get_char, IStream.sentry,
    IStream.good, IStream.fail, IStream.get_string, IStream.skip_ws, h]

theorem split_args_loop_word (n : Nat) (cons rest : Str) (tok : Str) (out : List Str)
    (c : Char) (q : Str) (h : rest.dropWhile isspace = c :: q) (hc : c ≠ dquote)
    (hsp : isspace c = false) :
    split_args_loop (n + 1) (loop_head cons rest false) tok out =
      split_args_loop n
        (loop_head ((q.takeWhile fun c => !isspace c).reverse
            ++ c :: ((rest.takeWhile isspace).reverse ++ cons))
          (q.dropWhile fun c => !isspace c)
          (q.dropWhile fun c => !isspace c).isEmpty)
        (c :: q.takeWhile fun c => !isspace c)
        (out ++ [c :: q.takeWhile fun c => !isspace c]) := by
  rw [split_args_loop]
  rcases hr : q.dropWhile (fun c => !isspace c) with _ | ⟨y, r⟩ <;>
  simp [loop_head, IStream.get_quoted, IStream.get_char, IStream.sentry,
    IStream.good, IStream.fail, IStream.get_string, IStream.skip_ws, h, hc, IStream.unget, hsp,
    hr]

/-! ### The quoted extractor -/

theorem quoted_loop_unterminated (n : Nat) : ∀ (cons u str : Str) (c : Char),
    dquote ∉ u → u.length < n →
    ∃ s1 str1, IStream.quoted_loop n
        { consumed := cons, rest := u, eofbit := false, failbit := false, badbit := false,
          skipws := false } str c = some (s1, str1) ∧ s1.failbit = true := by
  induction n with
  | zero => intro cons u str c _ hlen; omega
  | succ n ih =>
    intro cons u str c hq hlen
    cases u with
    | nil =>
      simp [IStream.quoted_loop, IStream.get_char, IStream.sentry, IStream.good]
    | cons x u1 =>
      have hx : x ≠ dquote := fun e => hq (by simp [e])
      have hq1 : dquote ∉ u1 := fun e => hq (by simp [e])
      by_cases hb : x = backslash
      · cases u1 with
        | nil =>
          simp [IStream.quoted_loop, IStream.get_char, IStream.sentry, IStream.good, hb]
        | cons y u2 =>
          have hq2 : dquote ∉ u2 := fun e => hq1 (by simp [e])
          obtain ⟨s1, str1, h1, h2⟩ := ih (y :: x :: cons) u2 (str ++ [y]) y hq2
            (by simp at hlen; omega)
          refine ⟨s1, str1, ?_, h2⟩
          rw [← h1]
          simp [IStream.quoted_loop, IStream.get_char, IStream.sentry, IStream.good, hb]
      · obtain ⟨s1, str1, h1, h2⟩ := ih (x :: cons) u1 (str ++ [x]) x hq1
          (by simp at hlen; omega)
        refine ⟨s1, str1, ?_, h2⟩
        rw [← h1]
        simp [IStream.quoted_loop, IStream.get_char, IStream.sentry, IStream.good, hb, hx]

theorem quoted_loop_terminated (n : Nat) : ∀ (cons t r str : Str) (c : Char),
    dquote ∉ t → backslash ∉ t → t.length < n →
    IStream.quoted_loop n
        { consumed := cons, rest := t ++ dquote :: r, eofbit := false, failbit := false,
          badbit := false, skipws := false } str c
      = some ({ consumed := dquote :: (t.reverse ++ cons), rest := r, eofbit := false,
                failbit := false, badbit := false, skipws := false }, str ++ t) := by
  induction n with
  | zero => intro cons t r str c _ _ hlen; omega
  | succ n ih =>
    intro cons t r str c hq hb hlen
    cases t with
    | nil =>
      have : dquote ≠ backslash := by decide
      simp [IStream.quoted_loop, IStream.get_char, IStream.sentry, IStream.good, this]
    | cons x t1 =>
      have hx : x ≠ dquote := fun e => hq (by simp [e])
      have hxb : x ≠ backslash := fun e => hb (by simp [e])
      have hq1 : dquote ∉ t1 := fun e => hq (by simp [e])
      have hb1 : backslash ∉ t1 := fun e => hb (by simp [e])
      have := ih (x :: cons) t1 r (str ++ [x]) x hq1 hb1 (by simp at hlen; omega)
      simp [IStream.quoted_loop, IStream.get_char, IStream.sentry, IStream.good, hx, hxb, this]

theorem split_args_loop_unterminated (n : Nat) (cons rest : Str) (tok : Str) (out : List Str)
    (u : Str) (h : rest.dropWhile isspace = dquote :: u) (hq : dquote ∉ u) :
    split_args_loop (n + 1) (loop_head cons rest false) tok out = some out := by
  obtain ⟨s1, str1, h1, h2⟩ := quoted_loop_unterminated (u.length + 1)
    (dquote :: ((rest.takeWhile isspace).reverse ++ cons)) u [] dquote hq (by omega)
  rw [split_args_loop]
  simp [loop_head, IStream.get_quoted, IStream.get_char, IStream.sentry,
    IStream.good, IStream.fail, IStream.get_string, IStream.skip_ws, h, h1, h2]

theorem split_args_loop_quoted (n : Nat) (cons rest : Str) (tok : Str) (out : List Str)
    (t r : Str) (h : rest.dropWhile isspace = dquote :: (t ++ dquote :: r))
    (hq : dquote ∉ t) (hb : backslash ∉ t) :
    split_args_loop (n + 1) (loop_head cons rest false) tok out =
      split_args_loop n
        (loop_head (dquote :: (t.reverse ++ dquote :: ((rest.takeWhile isspace).reverse ++ cons)))
          r false) t (out ++ [t]) := by
  have h1 := quoted_loop_terminated ((t ++ dquote :: r).length + 1)
    (dquote :: ((rest.takeWhile isspace).reverse ++ cons)) t r [] dquote hq hb (by simp; omega)
  rw [split_args_loop]
  simp [loop_head, IStream.get_quoted, IStream.get_char, IStream.sentry,
    IStream.good, IStream.fail, IStream.get_string, IStream.skip_ws, h]
  simp at h1
  simp [h1]

/-! ### The tokenizer loop on unquoted text -/

theorem ws_runs_blank (p : Str) (h : p.dropWhile isspace = []) : ws_runs p = [] := by
  rw [ws_runs_skip, h, ws_runs_nil]

theorem ws_runs_step (p : Str) (c : Char) (p1 : Str) (h : p.dropWhile isspace = c :: p1)
    (hsp : isspace c = false) :
    ws_runs p = (c :: p1.takeWhile fun c => !isspace c) ::
      ws_runs (p1.dropWhile fun c => !isspace c) := by
  rw [ws_runs_skip, h, ws_runs_word c p1 hsp]
  simp [hsp]

theorem split_args_loop_plain (n : Nat) : ∀ (p tail cons tok : Str) (out : List Str) (eof : Bool),
    dquote ∉ p → (p ++ tail).length < n → (eof = true → p ++ tail = []) →
    (tail = [] ∨ ∃ u, tail = dquote :: u ∧ dquote ∉ u ∧ ∀ c ∈ p.getLast?, isspace c = true) →
    split_args_loop n (loop_head cons (p ++ tail) eof) tok out = some (out ++ ws_runs p) := by
  induction n with
  | zero => intro p tail cons tok out eof _ hlen; omega
  | succ n ih =>
    intro p tail cons tok out eof hq hlen heof htail
    cases eof with
    | true =>
      have hnil := heof rfl
      have hp : p = [] := (List.append_eq_nil.1 hnil).1
      rw [hnil, split_args_loop_stop_eof, hp, ws_runs_nil, List.append_nil]
    | false =>
      rcases hd : (p ++ tail).dropWhile isspace with _ | ⟨c, q⟩
      · rw [split_args_loop_stop_blank _ _ _ _ _ hd]
        have hp : p.dropWhile isspace = [] := by
          rw [List.dropWhile_eq_nil_iff] at hd ⊢
          intro x hx
          exact hd x (List.mem_append_left _ hx)
        rw [ws_runs_blank p hp, List.append_nil]
      · rcases hpd : p.dropWhile isspace with _ | ⟨c1, p1⟩
        · -- only whitespace before the tail
          have hall : ∀ x ∈ p, isspace x = true := List.dropWhile_eq_nil_iff.1 hpd
          have hd2 : (p ++ tail).dropWhile isspace = tail.dropWhile isspace := by
            clear hd hlen htail heof hpd hq
            induction p with
            | nil => rfl
            | cons x xs ihx =>
              have hx : isspace x = true := hall x (by simp)
              simp only [List.cons_append, List.dropWhile_cons, hx, if_true]
              exact ihx (fun y hy => hall y (by simp [hy]))
          rw [hd2] at hd
          rcases htail with rfl | ⟨u, rfl, hu, _⟩
          · simp at hd
          · have hd3 : (p ++ dquote :: u).dropWhile isspace = dquote :: u := by
              rw [hd2]; simp [dquote_not_space]
            rw [split_args_loop_unterminated _ _ _ _ _ u hd3 hu, ws_runs_blank p hpd,
              List.append_nil]
        · -- a word starts inside `p`
          have hmem : c1 ∈ p := by
            have : c1 ∈ p.dropWhile isspace := by simp [hpd]
            exact (List.dropWhile_sublist _).subset this
          have hsp : isspace c1 = false := by
            have := List.head_dropWhile_not isspace p (by simp [hpd])
            simpa [hpd] using this
          have hstop : ∃ x ∈ p, isspace x = false := ⟨c1, hmem, hsp⟩
          have hd2 := (takeWhile_append_of_stop isspace p tail hstop).2
          have ht2 := (takeWhile_append_of_stop isspace p tail hstop).1
          rw [hpd] at hd2
          have hc1 : c1 ≠ dquote := fun e => hq (e ▸ hmem)
          rw [split_args_loop_word n cons (p ++ tail) tok out c1 (p1 ++ tail) hd2 hc1 hsp]
          have hlenp : p1.length < p.length := by
            have := (List.dropWhile_sublist isspace (l := p)).length_le
            rw [hpd] at this
            simp at this
            omega
          have hsplit : (p1 ++ tail).takeWhile (fun c => !isspace c)
                = p1.takeWhile (fun c => !isspace c) ∧
              (p1 ++ tail).dropWhile (fun c => !isspace c)
                = p1.dropWhile (fun c => !isspace c) ++ tail := by
            rcases htail with rfl | ⟨u, rfl, _, hlast⟩
            · simp
            · apply takeWhile_append_of_stop
              have hl : (c1 :: p1).getLast? = p.getLast? := by
                rw [← hpd]; exact getLast?_dropWhile isspace p (by simp [hpd])
              obtain ⟨x, hx, hxs⟩ := exists_space_of_getLast? (c1 :: p1) (by simp)
                (by rw [hl]; exact hlast)
              rcases List.mem_cons.1 hx with rfl | hx
              · simp [hsp] at hxs
              · exact ⟨x, hx, hxs⟩
          rw [hsplit.1, hsplit.2]
          have hsub : ∀ x ∈ p1.dropWhile (fun c => !isspace c), x ∈ p := by
            intro x hx
            have h1 : x ∈ p1 := (List.dropWhile_sublist _).subset hx
            have h2 : x ∈ p.dropWhile isspace := by simp [hpd, h1]
            exact (List.dropWhile_sublist _).subset h2
          rw [ih (p1.dropWhile fun c => !isspace c) tail _ _ _ _
            (fun e => hq (hsub _ e))
            (by
              have := (List.dropWhile_sublist (fun c => !isspace c) (l := p1)).length_le
              simp only [List.length_append] at hlen ⊢
              omega)
            (by intro h; simpa using h)
            (by
              rcases htail with rfl | ⟨u, rfl, hu, hlast⟩
              · exact Or.inl rfl
              · refine Or.inr ⟨u, rfl, hu, ?_⟩
                by_cases hne : p1.dropWhile (fun c => !isspace c) = []
                · simp [hne]
                · have e1 := getLast?_dropWhile (fun c => !isspace c) p1 hne
                  have hp1 : p1 ≠ [] := by
                    intro e; apply hne; simp [e]
                  have e2 : (c1 :: p1).getLast? = p1.getLast? := by
                    cases p1 with
                    | nil => exact absurd rfl hp1
                    | cons y ys => simp [List.getLast?_cons_cons]
                  have e3 : (c1 :: p1).getLast? = p.getLast? := by
                    rw [← hpd]; exact getLast?_dropWhile isspace p (by simp [hpd])
                  rw [e1, ← e2, e3]; exact hlast)]
          rw [ws_runs_step p c1 p1 hpd hsp]
          simp

/-! ### The tokenizer -/

theorem ws_runs_ne_nil (line : Str) : ∀ tok ∈ ws_runs line, tok ≠ [] := by
  intro tok h
  unfold ws_runs at h
  have := (List.mem_filter.1 h).2
  intro e
  simp [e] at this

/-- C5.  For a line without a double quote, `split_args` returns the maximal
runs of non-whitespace characters of the line, in order; no token is empty;
the empty line and every whitespace-only line give no token. -/
theorem split_args_unquoted (line : Str) (h : dquote ∉ line) :
    split_args line = some (ws_runs line) ∧
    (∀ tok ∈ ws_runs line, tok ≠ []) ∧
    ((∀ c ∈ line, isspace c = true) → split_args line = some []) ∧
    split_args [] = some [] := by
  have hrun : ∀ l : Str, dquote ∉ l → split_args l = some (ws_runs l) := by
    intro l hl
    have := split_args_loop_plain (l.length + 1) l [] [] [] [] false
      hl (by simp) (by simp) (Or.inl rfl)
    simpa [split_args, IStream.ofString, loop_head] using this
  refine ⟨hrun line h, ws_runs_ne_nil line, ?_, rfl⟩
  intro hall
  rw [hrun line h, ws_runs_blank line (List.dropWhile_eq_nil_iff.2 hall)]

/-- Witness for C5: a line with leading, repeated and trailing whitespace. -/
theorem split_args_unquoted_witness :
    split_args "  copy a.txt\t b.txt ".toList
      = some ["copy".toList, "a.txt".toList, "b.txt".toList] :=
  (split_args_unquoted "  copy a.txt\t b.txt ".toList (by decide)).1.trans (by decide)

/-- C6, as the code has it.  For a text `t` without a double quote and
without a backslash, `split_args` on `t` in double quotes returns the single
token `t`; and `copy "my file" dest` gives `copy`, `my file`, `dest`. -/
theorem split_args_quoted (t : Str) (hq : dquote ∉ t) (hb : backslash ∉ t) :
    split_args (dquote :: t ++ [dquote]) = some [t] ∧
    split_args ("copy ".toList ++ [dquote] ++ "my file".toList ++ [dquote] ++ " dest".toList)
      = some ["copy".toList, "my file".toList, "dest".toList] := by
  refine ⟨?_, by decide⟩
  have h1 := split_args_loop_quoted (t.length + 2) [] (dquote :: (t ++ [dquote])) [] [] t []
    (by simp [dquote_not_space]) hq hb
  have h2 := split_args_loop_stop_blank (t.length + 1)
    (dquote :: (t.reverse ++ dquote ::
      (((dquote :: (t ++ [dquote])).takeWhile isspace).reverse ++ []))) [] t ([] ++ [t]) rfl
  rw [h2] at h1
  simpa [split_args, IStream.ofString, loop_head] using h1

/-- Witness for C6 as amended: the quoted text `my file`. -/
theorem split_args_quoted_witness :
    split_args (dquote :: "my file".toList ++ [dquote]) = some ["my file".toList] :=
  (split_args_quoted "my file".toList (by decide) (by decide)).1

/-- C6 as stated fails: the text `a\b` has no double quote, and in double
quotes it is read as the token `ab`, the backslash being the escape
character of the quoted extractor. -/
theorem split_args_quoted_backslash :
    dquote ∉ ['a', backslash, 'b'] ∧
    split_args (dquote :: ['a', backslash, 'b'] ++ [dquote]) = some [['a', 'b']] ∧
    split_args (dquote :: ['a', backslash, 'b'] ++ [dquote]) ≠ some [['a', backslash, 'b']] := by
  decide

/-- C10.  For a line `p ++ dquote :: u` where `p` has no double quote and is
empty or ends in whitespace, and `u` has no double quote, `split_args`
returns the tokens of `p`, which are the whitespace-separated runs of `p`:
the unterminated quoted token and the text after the opening quote are
dropped.  So `rm "my file` gives `rm`, and an unterminated quoted token alone
gives no token. -/
theorem split_args_unterminated (p u : Str) (hp : dquote ∉ p) (hu : dquote ∉ u)
    (hend : p = [] ∨ ∃ p0 c, p = p0 ++ [c] ∧ isspace c = true) :
    split_args (p ++ dquote :: u) = some (ws_runs p) ∧
    split_args (p ++ dquote :: u) = split_args p ∧
    split_args (dquote :: u) = some [] ∧
    split_args ("rm ".toList ++ dquote :: "my file".toList) = some ["rm".toList] := by
  have hlast : ∀ c ∈ p.getLast?, isspace c = true := by
    rcases hend with rfl | ⟨p0, c, rfl, hc⟩
    · simp
    · simp [hc]
  have h1 : split_args (p ++ dquote :: u) = some (ws_runs p) := by
    have := split_args_loop_plain ((p ++ dquote :: u).length + 1) p (dquote :: u) [] [] [] false
      hp (by simp) (by simp) (Or.inr ⟨u, rfl, hu, hlast⟩)
    simpa [split_args, IStream.ofString, loop_head] using this
  have h2 : split_args p = some (ws_runs p) := by
    have := split_args_loop_plain (p.length + 1) p [] [] [] [] false
      hp (by simp) (by simp) (Or.inl rfl)
    simpa [split_args, IStream.ofString, loop_head] using this
  have h3 : split_args (dquote :: u) = some [] := by
    have := split_args_loop_plain ((dquote :: u).length + 1) [] (dquote :: u) [] [] [] false
      (by simp) (by simp) (by simp) (Or.inr ⟨u, rfl, hu, by simp⟩)
    simpa [split_args, IStream.ofString, loop_head, ws_runs_nil] using this
  exact ⟨h1, h1.trans h2.symm, h3, by decide⟩

/-- Witness for C10: `rm "my file` with the quote left open. -/
theorem split_args_unterminated_witness :
    split_args ("rm ".toList ++ dquote :: "my file".toList) = some ["rm".toList] :=
  (split_args_unterminated "rm ".toList "my file".toList (by decide) (by decide)
    (Or.inr ⟨"rm".toList, ' ', rfl, by decide⟩)).1.trans (by decide)

/-! ### The tokenizer loop ends on every line -/

theorem length_dropWhile_le (f : Char → Bool) (l : Str) : (l.dropWhile f).length ≤ l.length :=
  (List.dropWhile_sublist f).length_le

theorem length_dropWhile_lt (f : Char → Bool) (l : Str) (h : l.takeWhile f ≠ []) :
    (l.dropWhile f).length < l.length := by
  have h2 := congrArg List.length (List.takeWhile_append_dropWhile f l)
  simp only [List.length_append] at h2
  have : 0 < (l.takeWhile f).length := List.length_pos.2 h
  omega

theorem get_string_failed (s : IStream) (str : Str) (h : s.good = false) :
    (s.get_string str).1.fail = true := by
  simp only [IStream.get_string, IStream.sentry, h, Bool.false_eq_true, if_false]
  simp [IStream.fail]

theorem get_string_progress (s : IStream) (str : Str)
    (h : (s.get_string str).1.fail = false) :
    (s.get_string str).1.rest.length < s.rest.length := by
  by_cases hg : s.good = true
  · obtain ⟨cons, rest, e, f, b, k⟩ := s
    have he : e = false := by cases e <;> simp_all [IStream.good]
    have hf : f = false := by cases f <;> simp_all [IStream.good]
    have hb : b = false := by cases b <;> simp_all [IStream.good]
    subst he hf hb
    cases k with
    | true =>
      have hle := length_dropWhile_le isspace rest
      have hlt := length_dropWhile_lt (fun c => !isspace c) (rest.dropWhile isspace)
      simp only [IStream.get_string, IStream.sentry, IStream.good, IStream.skip_ws,
        IStream.fail, Bool.not_false, Bool.true_and, Bool.and_self, if_true] at h ⊢
      generalize rest.dropWhile isspace = d at *
      cases d with
      | nil => simp at h
      | cons x d1 =>
        simp only [List.isEmpty_cons, Bool.false_eq_true, if_false] at h ⊢
        generalize hw : (x :: d1).takeWhile (fun c => !isspace c) = word at *
        generalize hr : (x :: d1).dropWhile (fun c => !isspace c) = r at *
        cases word with
        | nil => cases r <;> simp at h
        | cons y word1 =>
          have := hlt (by simp)
          cases r <;>
            simp only [List.isEmpty_nil, List.isEmpty_cons, if_true, Bool.false_eq_true,
              if_false, List.length_cons, List.length_nil] at this hle ⊢ <;> omega
    | false =>
      have hlt := length_dropWhile_lt (fun c => !isspace c) rest
      simp only [IStream.get_string, IStream.sentry, IStream.good, IStream.skip_ws,
        IStream.fail, Bool.not_false, Bool.true_and, Bool.and_self, if_true, Bool.and_false,
        Bool.false_eq_true, if_false] at h ⊢
      generalize hw : rest.takeWhile (fun c => !isspace c) = word at *
      generalize hr : rest.dropWhile (fun c => !isspace c) = r at *
      cases word with
      | nil => cases r <;> simp at h
      | cons y word1 =>
        have := hlt (by simp)
        cases r <;>
          simp only [List.isEmpty_nil, List.isEmpty_cons, if_true, Bool.false_eq_true,
            if_false, List.length_cons, List.length_nil] at this ⊢ <;> omega
  · have := get_string_failed s str (by simpa using hg)
    rw [this] at h
    exact absurd h (by simp)

theorem get_char_progress (s : IStream) (c : Char) :
    (s.get_char c).1.rest.length ≤ s.rest.length ∧
    ((s.get_char c).1.good = false → (s.get_char c).1.fail = true) ∧
    ((s.get_char c).1.good = true →
      (s.get_char c).1.rest.length < s.rest.length ∧
      (s.get_char c).1.unget.rest.length ≤ s.rest.length) := by
  by_cases hg : s.good = true
  · obtain ⟨cons, rest, e, f, b, k⟩ := s
    have he : e = false := by cases e <;> simp_all [IStream.good]
    have hf : f = false := by cases f <;> simp_all [IStream.good]
    have hb : b = false := by cases b <;> simp_all [IStream.good]
    subst he hf hb
    cases k with
    | true =>
      have hle := length_dropWhile_le isspace rest
      simp only [IStream.get_char, IStream.sentry, IStream.good, IStream.skip_ws,
        IStream.fail, IStream.unget, Bool.not_false, Bool.true_and, Bool.and_self, if_true]
      generalize rest.dropWhile isspace = d at *
      cases d with
      | nil => simp
      | cons x d1 =>
        simp only [List.length_cons] at hle
        simp
        omega
    | false =>
      simp only [IStream.get_char, IStream.sentry, IStream.good, IStream.skip_ws,
        IStream.fail, IStream.unget, Bool.not_false, Bool.true_and, Bool.and_self, if_true,
        Bool.and_false, Bool.false_eq_true, if_false]
      cases rest with
      | nil => simp
      | cons x d1 => simp
  · have hg2 : s.good = false := by simpa using hg
    simp only [IStream.get_char, IStream.sentry, hg2, Bool.false_eq_true, if_false]
    simp [IStream.fail, IStream.good]

theorem quoted_loop_total (n : Nat) : ∀ (s : IStream) (str : Str) (c : Char),
    s.rest.length < n →
    ∃ r, IStream.quoted_loop n s str c = some r ∧ r.1.rest.length ≤ s.rest.length := by
  induction n with
  | zero => intro s str c h; omega
  | succ n ih =>
    intro s str c h
    rw [IStream.quoted_loop]
    obtain ⟨h1, _, h3⟩ := get_char_progress s c
    rcases hgc : s.get_char c with ⟨s1, c1⟩
    rw [hgc] at h1 h3
    simp only at h1 h3 ⊢
    by_cases hg : s1.good = true
    · have hlt := (h3 hg).1
      simp only [hg, Bool.not_true, Bool.false_eq_true, if_false]
      by_cases hb : c1 = backslash
      · simp only [hb, if_true]
        obtain ⟨k1, _, k3⟩ := get_char_progress s1 backslash
        rcases hgc2 : s1.get_char backslash with ⟨s2, c2⟩
        rw [hgc2] at k1 k3
        simp only at k1 k3 ⊢
        by_cases hg2 : s2.good = true
        · simp only [hg2, Bool.not_true, Bool.false_eq_true, if_false]
          obtain ⟨r, hr1, hr2⟩ := ih s2 (str ++ [c2]) c2 (by omega)
          exact ⟨r, hr1, by omega⟩
        · simp only [hg2, Bool.not_false, if_true]
          exact ⟨_, rfl, by simp only; omega⟩
      · simp only [hb, if_false]
        by_cases hd : c1 = dquote
        · simp only [hd, if_true]
          exact ⟨_, rfl, by simp only; omega⟩
        · simp only [hd, if_false]
          obtain ⟨r, hr1, hr2⟩ := ih s1 (str ++ [c1]) c1 (by omega)
          exact ⟨r, hr1, by omega⟩
    · simp only [hg, Bool.not_false, if_true]
      exact ⟨_, rfl, h1⟩

theorem get_quoted_total (s : IStream) (str : Str) :
    ∃ r, s.get_quoted str = some r ∧
      (r.1.fail = false → r.1.rest.length < s.rest.length) ∧
      (r.1.fail = true → r.1.good = false) := by
  rw [IStream.get_quoted]
  obtain ⟨h1, h2, h3⟩ := get_char_progress s (Char.ofNat 0)
  rcases hgc : s.get_char (Char.ofNat 0) with ⟨s1, c1⟩
  rw [hgc] at h1 h2 h3
  simp only at h1 h2 h3 ⊢
  by_cases hg : s1.good = true
  · obtain ⟨hlt, hun⟩ := h3 hg
    simp only [hg, Bool.not_true, Bool.false_eq_true, if_false]
    by_cases hd : c1 = dquote
    · simp only [hd, ne_eq, not_true_eq_false, if_false]
      obtain ⟨r, hr1, hr2⟩ := quoted_loop_total (s1.rest.length + 1)
        { s1 with skipws := false } [] dquote (by simp)
      obtain ⟨s2, str2⟩ := r
      simp only [hr1]
      refine ⟨_, rfl, ?_, ?_⟩
      · intro _
        simp only at hr2 ⊢
        omega
      · intro hf
        simp only [IStream.fail, IStream.good, Bool.or_eq_true] at hf ⊢
        rcases hf with h | h <;> simp [h]
    · simp only [ne_eq, hd, not_false_eq_true, if_true]
      refine ⟨_, rfl, ?_, ?_⟩
      · intro hf
        have := get_string_progress s1.unget str hf
        omega
      · intro hf
        simp only [IStream.fail, IStream.good, Bool.or_eq_true] at hf ⊢
        rcases hf with h | h <;> simp [h]
  · have hg2 : s1.good = false := by simpa using hg
    simp only [hg2, Bool.not_false, if_true]
    refine ⟨_, rfl, ?_, fun _ => hg2⟩
    intro hf
    rw [h2 hg2] at hf
    exact absurd hf (by simp)

theorem split_args_loop_total (n : Nat) : ∀ (s : IStream) (tok : Str) (out : List Str),
    s.rest.length < n → ∃ toks, split_args_loop n s tok out = some toks := by
  induction n with
  | zero => intro s tok out h; omega
  | succ n ih =>
    intro s tok out h
    rw [split_args_loop]
    obtain ⟨⟨s1, tok1⟩, hq, hprog, hbad⟩ := get_quoted_total s tok
    simp only [hq]
    by_cases hf : s1.fail = true
    · have hfail := get_string_failed s1 tok1 (hbad hf)
      rcases hgs : s1.get_string tok1 with ⟨s2, tok2⟩
      rw [hgs] at hfail
      simp only at hfail
      simp [hf, hfail]
    · have hf2 : s1.fail = false := by simpa using hf
      simp only [hf2, Bool.not_false, if_true]
      exact ih s1 tok1 (out ++ [tok1]) (by have := hprog hf2; simp only at this; omega)

/-- The tokenizer returns on every line: the fuel never runs out. -/
theorem split_args_total (line : Str) : ∃ toks, split_args line = some toks :=
  split_args_loop_total (line.length + 1) (IStream.ofString line) [] []
    (by simp [IStream.ofString])

/-! ### The dispatch -/

theorem length_lt_one {α : Type} (l : List α) (h : l.length < 1) : l = [] := by
  cases l with
  | nil => rfl
  | cons x xs => simp at h

theorem length_lt_two {α : Type} (l : List α) (h : l.length < 2) : l = [] ∨ ∃ x, l = [x] := by
  cases l with
  | nil => exact Or.inl rfl
  | cons x xs =>
    cases xs with
    | nil => exact Or.inr ⟨x, rfl⟩
    | cons y ys => simp only [List.length_cons] at h; omega

/-- C7.  When the first token is one of `cd`, `rm`, `mkdir`, `touch`,
`search`, `perms` and no argument follows, or one of `copy`, `move`, `chmod`
and fewer than two arguments follow, the dispatch writes that command's
usage line, makes no library call, leaves the filesystem as it was, reads no
token past the end, and the loop stays in `Running`. -/
theorem dispatch_usage {σ : Type} (api : FsApi σ) (w : World σ) (cmd : Str) (rest : List Str)
    (h : (cmd ∈ ["cd".toList, "rm".toList, "mkdir".toList, "touch".toList, "search".toList,
                  "perms".toList] ∧ rest.length < 1)
        ∨ (cmd ∈ ["copy".toList, "move".toList, "chmod".toList] ∧ rest.length < 2)) :
    dispatch api (cmd :: rest) w = (Except.ok LoopState.Running, w.say (usage_message cmd) []) ∧
    (dispatch api (cmd :: rest) w).2.calls = w.calls ∧
    (dispatch api (cmd :: rest) w).2.fs = w.fs ∧
    usage_message cmd ≠ [] := by
  have key : dispatch api (cmd :: rest) w
        = (Except.ok LoopState.Running, w.say (usage_message cmd) []) ∧ usage_message cmd ≠ [] := by
    rcases h with ⟨hc, hr⟩ | ⟨hc, hr⟩
    · have hr0 := length_lt_one rest hr
      subst hr0
      simp only [List.mem_cons, List.mem_singleton, List.not_mem_nil, or_false] at hc
      rcases hc with rfl | rfl | rfl | rfl | rfl | rfl <;>
        exact ⟨by simp [dispatch, index, ret, bind, andThen, print, World.say, usage_message],
          by decide⟩
    · simp only [List.mem_cons, List.mem_singleton, List.not_mem_nil, or_false] at hc
      rcases length_lt_two rest hr with rfl | ⟨x, rfl⟩ <;>
      rcases hc with rfl | rfl | rfl <;>
        exact ⟨by simp [dispatch, index, ret, bind, andThen, print, World.say, usage_message],
          by decide⟩
  refine ⟨key.1, ?_, ?_, key.2⟩
  · rw [key.1]; simp [World.say]
  · rw [key.1]; rfl

/-- Witness for C7: `chmod f.txt` with the octal text missing. -/
theorem dispatch_usage_witness :
    dispatch toy_api ["chmod".toList, "f.txt".toList] toy_world
      = (Except.ok LoopState.Running,
          toy_world.say "Usage: chmod <path> <3-digit-octal>\n".toList []) :=
  (dispatch_usage toy_api toy_world "chmod".toList ["f.txt".toList]
    (Or.inr ⟨by decide, by decide⟩)).1

/-- C9.  With the current directory gone, so that `fs::current_path()`
throws, the lines `ls`, `cd ""` and `search x` end the pass with an
uncaught exception instead of `Running`: the call is made outside the `try`
block.  On the same filesystem `pwd`, whose call is guarded, writes `?` and
stays in `Running`. -/
theorem process_line_uncaught_current_path :
    process_line toy_api "ls".toList toy_world_no_cwd
      = (Except.error
          (Fault.exception "cannot get current path: No such file or directory".toList),
          toy_world_no_cwd.say [] [FsCall.current_path]) ∧
    process_line toy_api ("cd ".toList ++ [dquote, dquote]) toy_world_no_cwd
      = (Except.error
          (Fault.exception "cannot get current path: No such file or directory".toList),
          toy_world_no_cwd.say [] [FsCall.current_path]) ∧
    process_line toy_api "search x".toList toy_world_no_cwd
      = (Except.error
          (Fault.exception "cannot get current path: No such file or directory".toList),
          toy_world_no_cwd.say [] [FsCall.current_path]) ∧
    process_line toy_api "pwd".toList toy_world_no_cwd
      = (Except.ok LoopState.Running,
          toy_world_no_cwd.say "?\n".toList [FsCall.current_path]) := by
  refine ⟨rfl, rfl, rfl, rfl⟩

/-! ### No command ends the loop -/

theorem throws_only_ret {σ α : Type} (a : α) : (ret a : Prog σ α).throws_only := by
  intro w f h; simp [ret] at h

theorem throws_only_print {σ : Type} (t : Str) : (print t : Prog σ Unit).throws_only := by
  intro w f h; simp [print] at h

theorem throws_only_raise {σ α : Type} (e : Str) :
    (raise (Fault.exception e) : Prog σ α).throws_only := by
  intro w f h
  simp only [raise, Except.error.injEq] at h
  exact ⟨e, h.symm⟩

theorem throws_only_query {σ α : Type} (c : FsCall) (g : σ → Except Str α) :
    (query c g).throws_only := by
  intro w f h
  simp only [query] at h
  cases hg : g w.fs with
  | ok a => simp [hg] at h
  | error e => simp only [hg, Except.error.injEq] at h; exact ⟨e, h.symm⟩

theorem throws_only_mutate {σ α : Type} (c : FsCall) (g : σ → Except Str α × σ) :
    (mutate c g).throws_only := by
  intro w f h
  simp only [mutate] at h
  rcases hg : g w.fs with ⟨r, fs1⟩
  cases r with
  | ok a => simp [hg] at h
  | error e => simp only [hg, Except.error.injEq] at h; exact ⟨e, h.symm⟩

theorem throws_only_bind {σ α β : Type} (m : Prog σ α) (k : α → Prog σ β)
    (hm : m.throws_only) (hk : ∀ a, (k a).throws_only) : (m >>= k).throws_only := by
  intro w f h
  simp only [bind, andThen] at h
  rcases hmw : m w with ⟨r, w1⟩
  cases r with
  | ok a => rw [hmw] at h; exact hk a w1 f h
  | error e =>
    rw [hmw] at h
    simp only [Except.error.injEq] at h
    exact hm w f (by rw [hmw, h])

theorem throws_only_try_catch {σ α : Type} (b : Prog σ α) (k : Str → Prog σ α)
    (hb : b.throws_only) (hk : ∀ e, (k e).throws_only) : (try_catch b k).throws_only := by
  intro w f h
  simp only [try_catch] at h
  rcases hbw : b w with ⟨r, w1⟩
  cases r with
  | ok a => rw [hbw] at h; simp at h
  | error e =>
    obtain ⟨x, rfl⟩ := hb w e (by rw [hbw])
    rw [hbw] at h
    exact hk x w1 f h

theorem returns_at_try_catch {σ α : Type} (b : Prog σ α) (k : Str → Prog σ α) (w : World σ)
    (hb : b.throws_only) (hk : ∀ e w1, (k e).returns_at w1) : (try_catch b k).returns_at w := by
  simp only [returns_at, try_catch]
  rcases hbw : b w with ⟨r, w1⟩
  cases r with
  | ok a => exact ⟨a, rfl⟩
  | error e =>
    obtain ⟨x, rfl⟩ := hb w e (by rw [hbw])
    exact hk x w1

theorem returns_at_print {σ : Type} (t : Str) (w : World σ) : (print t).returns_at w :=
  ⟨(), rfl⟩

theorem then_running {σ : Type} (m : Prog σ Unit) (w : World σ) (h : m.returns_at w) :
    ((do m; ret LoopState.Running : Prog σ LoopState) w).1 = Except.ok LoopState.Running := by
  obtain ⟨a, ha⟩ := h
  simp only [bind, andThen]
  rcases hm : m w with ⟨r, w1⟩
  rw [hm] at ha
  simp only at ha
  subst ha
  rfl

theorem throws_only_ls_entries {σ : Type} (api : FsApi σ) (l : List Str) :
    (ls_entries api l).throws_only := by
  induction l with
  | nil => exact throws_only_ret ()
  | cons entry more ih =>
    rw [ls_entries]
    refine throws_only_bind _ _ ?_ (fun type => throws_only_bind _ _ ?_
      (fun pstr => throws_only_bind _ _ (throws_only_print _) (fun _ => ih)))
    · refine throws_only_try_catch _ _ ?_ (fun _ => throws_only_ret _)
      refine throws_only_bind _ _ (throws_only_query _ _) (fun st => ?_)
      split
      · exact throws_only_ret _
      · refine throws_only_bind _ _ (throws_only_query _ _) (fun st2 => ?_)
        split <;> exact throws_only_ret _
    · refine throws_only_try_catch _ _ ?_ (fun _ => throws_only_ret _)
      exact throws_only_bind _ _ (throws_only_query _ _) (fun p => throws_only_ret _)

theorem throws_only_search_entries {σ : Type} (api : FsApi σ) (name : Str) (l : List Str) :
    (search_entries api name l).throws_only := by
  induction l with
  | nil => exact throws_only_ret ()
  | cons entry more ih =>
    rw [search_entries]
    refine throws_only_bind _ _ ?_ (fun _ => ih)
    refine throws_only_try_catch _ _ ?_ (fun _ => throws_only_ret _)
    dsimp only
    split
    · exact throws_only_print _
    · exact throws_only_ret _

theorem returns_at_ls_resolved {σ : Type} (api : FsApi σ) (target : Str) (w : World σ) :
    (try_catch (do_ls_try api target)
      (fun e => print ("ls error: ".toList ++ e ++ "\n".toList))).returns_at w := by
  refine returns_at_try_catch _ _ w ?_ (fun _ w1 => returns_at_print _ w1)
  unfold do_ls_try
  refine throws_only_bind _ _ (throws_only_query _ _) (fun ex => ?_)
  split
  · exact throws_only_print _
  · refine throws_only_bind _ _ (throws_only_query _ _) (fun isdir => ?_)
    split
    · exact throws_only_print _
    · refine throws_only_bind _ _ (throws_only_query _ _) (fun walk => ?_)
      refine throws_only_bind _ _ (throws_only_ls_entries api _) (fun _ => ?_)
      split
      · exact throws_only_raise _
      · exact throws_only_ret _

theorem returns_at_do_ls {σ : Type} (api : FsApi σ) (arg : Str) (w : World σ)
    (h : arg = [] → ∃ p, api.current_path w.fs = Except.ok p) : (do_ls api arg).returns_at w := by
  cases arg with
  | nil =>
    obtain ⟨p, hp⟩ := h rfl
    have := returns_at_ls_resolved api p { w with calls := w.calls ++ [FsCall.current_path] }
    simpa [do_ls, bind, andThen, query, hp, returns_at] using this
  | cons x xs =>
    have := returns_at_ls_resolved api (x :: xs) w
    simpa [do_ls, bind, andThen, ret, returns_at] using this

theorem throws_only_do_cd_try {σ : Type} (api : FsApi σ) (p : Str) :
    (do_cd_try api p).throws_only := by
  unfold do_cd_try
  refine throws_only_bind _ _ (throws_only_query _ _) (fun ex => ?_)
  have hjp : ∀ bad : Bool,
      (if bad = true then print ("Not a directory: ".toList ++ quoted_out p ++ "\n".toList)
        else mutate (FsCall.set_current_path p) (api.set_current_path p) :
          Prog σ Unit).throws_only := by
    intro bad
    split
    · exact throws_only_print _
    · exact throws_only_mutate _ _
  dsimp only
  split
  · exact throws_only_bind _ _ (throws_only_ret _) hjp
  · exact throws_only_bind _ _ (throws_only_query _ _)
      (fun _ => throws_only_bind _ _ (throws_only_ret _) hjp)

theorem returns_at_do_cd {σ : Type} (api : FsApi σ) (dir : Str) (w : World σ)
    (h : dir = [] → ∃ p, api.current_path w.fs = Except.ok p) : (do_cd api dir).returns_at w := by
  have key : ∀ p w1, (try_catch (do_cd_try api p)
      (fun e => print ("cd error: ".toList ++ e ++ "\n".toList))).returns_at w1 :=
    fun p w1 => returns_at_try_catch _ _ w1 (throws_only_do_cd_try api p)
      (fun _ w2 => returns_at_print _ w2)
  cases dir with
  | nil =>
    obtain ⟨p, hp⟩ := h rfl
    have := key p { w with calls := w.calls ++ [FsCall.current_path] }
    simpa [do_cd, bind, andThen, query, hp, returns_at] using this
  | cons x xs =>
    have := key (x :: xs) w
    simpa [do_cd, bind, andThen, ret, returns_at] using this

theorem returns_at_do_copy {σ : Type} (api : FsApi σ) (src dest : Str) (w : World σ) :
    (do_copy api src dest).returns_at w := by
  refine returns_at_try_catch _ _ w ?_ (fun _ w1 => returns_at_print _ w1)
  unfold do_copy_try
  refine throws_only_bind _ _ (throws_only_query _ _) (fun ex => ?_)
  split
  · exact throws_only_print _
  · refine throws_only_bind _ _ (throws_only_query _ _) (fun isdir => ?_)
    split
    · exact throws_only_mutate _ _
    · exact throws_only_bind _ _ (throws_only_mutate _ _) (fun _ => throws_only_mutate _ _)

theorem returns_at_do_move {σ : Type} (api : FsApi σ) (src dest : Str) (w : World σ) :
    (do_move api src dest).returns_at w :=
  returns_at_try_catch _ _ w (throws_only_mutate _ _) (fun _ w1 => returns_at_print _ w1)

theorem returns_at_do_rm {σ : Type} (api : FsApi σ) (path : Str) (w : World σ) :
    (do_rm api path).returns_at w := by
  refine returns_at_try_catch _ _ w ?_ (fun _ w1 => returns_at_print _ w1)
  unfold do_rm_try
  refine throws_only_bind _ _ (throws_only_query _ _) (fun ex => ?_)
  split
  · exact throws_only_print _
  · exact throws_only_mutate _ _

theorem returns_at_do_mkdir {σ : Type} (api : FsApi σ) (dir : Str) (w : World σ) :
    (do_mkdir api dir).returns_at w := by
  refine returns_at_try_catch _ _ w ?_ (fun _ w1 => returns_at_print _ w1)
  unfold do_mkdir_try
  refine throws_only_bind _ _ (throws_only_query _ _) (fun ex => ?_)
  split
  · exact throws_only_print _
  · exact throws_only_mutate _ _

theorem returns_at_do_touch {σ : Type} (api : FsApi σ) (file : Str) (w : World σ) :
    (do_touch api file).returns_at w :=
  returns_at_try_catch _ _ w (throws_only_mutate _ _) (fun _ w1 => returns_at_print _ w1)

theorem returns_at_search_recursive {σ : Type} (api : FsApi σ) (start name : Str)
    (w : World σ) : (search_recursive api start name).returns_at w := by
  refine returns_at_try_catch _ _ w ?_ (fun _ w1 => returns_at_print _ w1)
  unfold search_recursive_try
  refine throws_only_bind _ _ (throws_only_query _ _) (fun walk => ?_)
  refine throws_only_bind _ _ (throws_only_search_entries api name _) (fun _ => ?_)
  split
  · exact throws_only_raise _
  · exact throws_only_ret _

theorem returns_at_show_perms {σ : Type} (api : FsApi σ) (path : Str) (w : World σ) :
    (show_perms api path).returns_at w := by
  refine returns_at_try_catch _ _ w ?_ (fun _ w1 => returns_at_print _ w1)
  unfold show_perms_try
  refine throws_only_bind _ _ (throws_only_query _ _) (fun ex => ?_)
  split
  · exact throws_only_print _
  · exact throws_only_bind _ _ (throws_only_query _ _) (fun _ => throws_only_print _)

theorem returns_at_do_chmod {σ : Type} (api : FsApi σ) (path octal : Str) (w : World σ) :
    (do_chmod api path octal).returns_at w := by
  refine returns_at_try_catch _ _ w ?_ (fun _ w1 => returns_at_print _ w1)
  unfold do_chmod_try
  refine throws_only_bind _ _ (throws_only_query _ _) (fun ex => ?_)
  split
  · exact throws_only_print _
  · split
    · exact throws_only_print _
    · exact throws_only_mutate _ _

theorem index_cons_zero {σ : Type} (a : Str) (l : List Str) :
    (index (a :: l) 0 : Prog σ Str) = ret a := rfl

theorem index_cons_one {σ : Type} (a b : Str) (l : List Str) :
    (index (a :: b :: l) 1 : Prog σ Str) = ret b := rfl

theorem index_cons_two {σ : Type} (a b c : Str) (l : List Str) :
    (index (a :: b :: c :: l) 2 : Prog σ Str) = ret c := rfl

theorem ret_bind {σ α β : Type} (a : α) (k : α → Prog σ β) : (ret a >>= k) = k a := rfl

theorem returns_at_show_help {σ : Type} (w : World σ) : (show_help : Prog σ Unit).returns_at w :=
  returns_at_print _ w

/-- Every command brings the loop back to `Running`, and `exit` alone ends
it, as long as `fs::current_path()` does not throw. -/
theorem dispatch_state {σ : Type} (api : FsApi σ) (w : World σ) (cmd : Str) (rest : List Str)
    (hcwd : ∃ p, api.current_path w.fs = Except.ok p) :
    (dispatch api (cmd :: rest) w).1
      = Except.ok (if cmd = "exit".toList then LoopState.Exiting else LoopState.Running) := by
  obtain ⟨cwd, hcwd1⟩ := hcwd
  by_cases h1 : cmd = "exit".toList
  · subst h1
    simp [dispatch, index_cons_zero, ret_bind, ret]
  by_cases h2 : cmd = "help".toList
  · subst h2
    simp [dispatch, index_cons_zero, ret_bind]
    exact then_running _ w (returns_at_show_help w)
  by_cases h3 : cmd = "ls".toList
  · subst h3
    rcases rest with _ | ⟨a, more⟩ <;>
      simp [dispatch, index_cons_zero, index_cons_one, ret_bind]
    · exact then_running _ w (returns_at_do_ls api [] w (fun _ => ⟨cwd, hcwd1⟩))
    · exact then_running _ w (returns_at_do_ls api a w (fun _ => ⟨cwd, hcwd1⟩))
  by_cases h4 : cmd = "pwd".toList
  · subst h4
    simp [dispatch, index_cons_zero, ret_bind]
    refine then_running _ w (returns_at_try_catch _ _ w ?_ (fun _ w1 => returns_at_print _ w1))
    exact throws_only_bind _ _ (throws_only_query _ _) (fun _ => throws_only_print _)
  by_cases h5 : cmd = "cd".toList
  · subst h5
    rcases rest with _ | ⟨a, more⟩ <;>
      simp [dispatch, index_cons_zero, index_cons_one, ret_bind]
    · exact then_running _ w (returns_at_print _ w)
    · exact then_running _ w (returns_at_do_cd api a w (fun _ => ⟨cwd, hcwd1⟩))
  by_cases h6 : cmd = "back".toList
  · subst h6
    simp [dispatch, index_cons_zero, ret_bind]
    refine then_running _ w (returns_at_try_catch _ _ w ?_ (fun _ w1 => returns_at_print _ w1))
    exact throws_only_bind _ _ (throws_only_query _ _) (fun _ => throws_only_mutate _ _)
  by_cases h7 : cmd = "copy".toList
  · subst h7
    rcases rest with _ | ⟨a, _ | ⟨b, more⟩⟩ <;>
      simp [dispatch, index_cons_zero, index_cons_one, index_cons_two, ret_bind]
    · exact then_running _ w (returns_at_print _ w)
    · exact then_running _ w (returns_at_print _ w)
    · exact then_running _ w (returns_at_do_copy api a b w)
  by_cases h8 : cmd = "move".toList
  · subst h8
    rcases rest with _ | ⟨a, _ | ⟨b, more⟩⟩ <;>
      simp [dispatch, index_cons_zero, index_cons_one, index_cons_two, ret_bind]
    · exact then_running _ w (returns_at_print _ w)
    · exact then_running _ w (returns_at_print _ w)
    · exact then_running _ w (returns_at_do_move api a b w)
  by_cases h9 : cmd = "rm".toList
  · subst h9
    rcases rest with _ | ⟨a, more⟩ <;>
      simp [dispatch, index_cons_zero, index_cons_one, ret_bind]
    · exact then_running _ w (returns_at_print _ w)
    · exact then_running _ w (returns_at_do_rm api a w)
  by_cases h10 : cmd = "mkdir".toList
  · subst h10
    rcases rest with _ | ⟨a, more⟩ <;>
      simp [dispatch, index_cons_zero, index_cons_one, ret_bind]
    · exact then_running _ w (returns_at_print _ w)
    · exact then_running _ w (returns_at_do_mkdir api a w)
  by_cases h11 : cmd = "touch".toList
  · subst h11
    rcases rest with _ | ⟨a, more⟩ <;>
      simp [dispatch, index_cons_zero, index_cons_one, ret_bind]
    · exact then_running _ w (returns_at_print _ w)
    · exact then_running _ w (returns_at_do_touch api a w)
  by_cases h12 : cmd = "search".toList
  · subst h12
    rcases rest with _ | ⟨a, _ | ⟨b, more⟩⟩ <;>
      simp [dispatch, index_cons_zero, index_cons_one, index_cons_two, ret_bind]
    · exact then_running _ w (returns_at_print _ w)
    · have := then_running _ { w with calls := w.calls ++ [FsCall.current_path] }
        (returns_at_search_recursive api cwd a _)
      simpa [bind, andThen, query, hcwd1] using this
    · exact then_running _ w (returns_at_search_recursive api b a w)
  by_cases h13 : cmd = "perms".toList
  · subst h13
    rcases rest with _ | ⟨a, more⟩ <;>
      simp [dispatch, index_cons_zero, index_cons_one, ret_bind]
    · exact then_running _ w (returns_at_print _ w)
    · exact then_running _ w (returns_at_show_perms api a w)
  by_cases h14 : cmd = "chmod".toList
  · subst h14
    rcases rest with _ | ⟨a, _ | ⟨b, more⟩⟩ <;>
      simp [dispatch, index_cons_zero, index_cons_one, index_cons_two, ret_bind]
    · exact then_running _ w (returns_at_print _ w)
    · exact then_running _ w (returns_at_print _ w)
    · exact then_running _ w (returns_at_do_chmod api a b w)
  simp only [dispatch, index_cons_zero, ret_bind, h1, h2, h3, h4, h5, h6, h7, h8, h9, h10, h11,
    h12, h13, h14, if_false]
  exact then_running _ w (returns_at_print _ w)

/-- A first token that is none of the fourteen command names writes the
fixed notice, makes no library call and leaves the loop in `Running`. -/
theorem dispatch_unknown {σ : Type} (api : FsApi σ) (w : World σ) (cmd : Str) (rest : List Str)
    (h : cmd ∉ ["ls".toList, "pwd".toList, "cd".toList, "back".toList, "copy".toList,
      "move".toList, "rm".toList, "mkdir".toList, "touch".toList, "search".toList,
      "perms".toList, "chmod".toList, "help".toList, "exit".toList]) :
    dispatch api (cmd :: rest) w
      = (Except.ok LoopState.Running,
          w.say "Unknown command. Type 'help' for list of commands.\n".toList []) := by
  simp only [List.mem_cons, List.mem_singleton, List.not_mem_nil, or_false, not_or] at h
  obtain ⟨h3, h4, h5, h6, h7, h8, h9, h10, h11, h12, h13, h14, h2, h1⟩ := h
  simp only [dispatch, index_cons_zero, ret_bind, h1, h2, h3, h4, h5, h6, h7, h8, h9, h10, h11,
    h12, h13, h14, if_false]
  simp [bind, andThen, print, ret, World.say]

/-- What one pass of the loop does with a line, as long as
`fs::current_path()` does not throw: the tokenizer returns; the state after
the pass is `Exiting` exactly when the first token is `exit`; an empty line
and a line without tokens change nothing. -/
theorem process_line_state {σ : Type} (api : FsApi σ) (w : World σ) (line : Str)
    (hcwd : ∃ p, api.current_path w.fs = Except.ok p) :
    ∃ toks, split_args line = some toks ∧
      (process_line api line w).1
        = Except.ok (if line ≠ [] ∧ toks.head? = some "exit".toList then LoopState.Exiting
            else LoopState.Running) ∧
      ((line = [] ∨ toks = []) → process_line api line w = (Except.ok LoopState.Running, w)) := by
  obtain ⟨toks, htoks⟩ := split_args_total line
  refine ⟨toks, htoks, ?_, ?_⟩
  · cases line with
    | nil => simp [process_line, ret]
    | cons x xs =>
      cases toks with
      | nil => simp [process_line, htoks, ret]
      | cons cmd rest =>
        have := dispatch_state api w cmd rest hcwd
        simp only [process_line, htoks, List.isEmpty_cons, Bool.false_eq_true, if_false, this]
        simp
  · rintro (rfl | rfl)
    · simp [process_line, ret]
    · cases line with
      | nil => simp [process_line, ret]
      | cons x xs => simp [process_line, htoks, ret]

end FileExplorer
